import Mathlib

/-!
# Verification of the Sales-Prediction statistics-filtering core

Shallow embedding of the statistics-filtering and deterministic-ranking
subsystem of the Sales-Prediction repository, centred on
`SalesAdvisor/sales_advisor_engine.py` (`_case_insensitive_lookup`,
`_get_relevant_stats`) and the near-duplicate variant
`SalesAdvisor/app.py` (`case_insensitive_lookup`, `get_relevant_stats`).

Modelling conventions:
* Python `dict`s are association lists `List (String × α)` in insertion
  order; keys are unique in any dict produced by Python, so lookups take
  the first match, while dict *assignment* (`d[k] = v`) is `dinsert`
  (overwrite in place, else append) and a dict comprehension that may
  collide (`{k.lower(): k for k in keys}`) keeps the last writer.
* Python floats are modelled as `ℚ` (no claim here depends on rounding).
* Raising code is modelled in `Except String`; the error string names the
  Python exception.
* The two LLM collaborators are external: the uplift-estimation call is a
  parameter `llmUplift : Option ℚ` standing for "the returned text parsed
  as a float after stripping `%`" (`none` = `ValueError` on parsing).
* Logging statements and the two cosmetic formatted-string fields
  (`price_insight`, `revenue_insight`) carry no data the core computes
  with; the insight fields are modelled by the numeric value they embed.
-/

namespace SalesAdvisor

/-- Python `str.lower()` (character-wise lowering, which is what the
source relies on for its ASCII table keys). -/
def pyLower (s : String) : String := ⟨s.data.map Char.toLower⟩

/-- Python dict read `d.get(k)`: first binding of `k` (dict keys are unique). -/
def dget {α : Type} (d : List (String × α)) (k : String) : Option α :=
  (d.find? (fun p => p.1 == k)).map (·.2)

/-- Python dict read `d[k]`: raises `KeyError` when absent. -/
def dgetE {α : Type} (d : List (String × α)) (k : String) : Except String α :=
  match dget d k with
  | some v => .ok v
  | none => .error ("KeyError: " ++ k)

/-- Python dict read `d.get(k, dflt)`. -/
def dgetD {α : Type} (d : List (String × α)) (k : String) (dflt : α) : α :=
  (dget d k).getD dflt

/-- Python dict assignment `d[k] = v`: overwrite in place, else append. -/
def dinsert {α : Type} (d : List (String × α)) (k : String) (v : α) :
    List (String × α) :=
  if d.any (fun p => p.1 == k) then
    d.map (fun p => if p.1 == k then (k, v) else p)
  else
    d ++ [(k, v)]

/-- `_case_insensitive_lookup` (engine lines 525-531) = app.py
`case_insensitive_lookup` (lines 251-270): `None`/empty search or empty
dict gives `None`; otherwise the comprehension `{k.lower(): k for k in
data_dict}` keeps the *last* key for each lowercase form and `.get`
returns the stored canonical key. -/
def case_insensitive_lookup {α : Type} (search : Option String)
    (d : List (String × α)) : Option String :=
  match search with
  | none => none
  | some s =>
    if s == "" || d.isEmpty then none
    else ((d.map Prod.fst).reverse).find? (fun k => pyLower k == pyLower s)

/-! ## Python `sorted(xs, key=…, reverse=True)`

Python's sort is stable; with `reverse=True` each comparison is reversed
while ties still keep their original relative order.  A stable sort by a
total preorder has a unique result, so the insertion sort below computes
exactly what CPython's Timsort returns for `sorted(xs, key=key,
reverse=True)`: `x` is inserted before the first element whose key is
`≤ key x` — strictly smaller elements are passed over, equal-key elements
that came earlier stay in front. -/

/-- Insert `x` into `l` (descending by `key`), before the first element
whose key is not larger — the stability-respecting position. -/
def insertDesc {α : Type} (key : α → ℚ) (x : α) : List α → List α
  | [] => [x]
  | y :: ys => if key x ≥ key y then x :: y :: ys else y :: insertDesc key x ys

/-- `sorted(xs, key=key, reverse=True)`: stable descending sort. -/
def sortDescBy {α : Type} (key : α → ℚ) : List α → List α
  | [] => []
  | x :: xs => insertDesc key x (sortDescBy key xs)

/-- Python `k.split("_", 1)` on the character list: split at the *first*
underscore, `none` when there is none (`len(parts) == 1`). -/
def splitFirstAux : List Char → Option (List Char × List Char)
  | [] => none
  | c :: cs =>
    if c = '_' then some ([], cs)
    else (splitFirstAux cs).map (fun p => (c :: p.1, p.2))

/-- Python `k.split("_", 1)` delivering the two parts when an underscore
exists (the `len(parts) == 2` case of the source). -/
def pySplitFirst (s : String) : Option (String × String) :=
  (splitFirstAux s.data).map (fun p => (⟨p.1⟩, ⟨p.2⟩))

/-- The alternative-combination candidate scan of the combination block
(engine lines 624-628 = app.py lines 341-345): for every composite key of
`product_sector_win_rates`, split on the first underscore and keep
`(parts[0], value)` whenever `parts[1].lower() == sector_key.lower()`. -/
def secCombos (table : List (String × ℚ)) (sector_key : String) :
    List (String × ℚ) :=
  table.filterMap (fun kv =>
    match pySplitFirst kv.1 with
    | some parts =>
      if pyLower parts.2 == pyLower sector_key then some (parts.1, kv.2) else none
    | none => none)

/-! ## Data model -/

/-- One `{win_rate, lift}` record of a dimension mapping. -/
structure WinLift where
  win_rate : ℚ
  lift : ℚ
  deriving Repr, DecidableEq

/-- One `{name, win_rate, lift, sample_size}` sales-rep record. -/
structure RepInfo where
  name : String
  win_rate : ℚ
  lift : ℚ
  sample_size : ℕ
  deriving Repr, DecidableEq

/-- One simulation dict.  Optional dict fields that only some simulations
carry are `Option`s; `uplift_percent` is present on every simulation the
source builds, so the `x.get("uplift_percent", 0)` sort key below never
falls back to its default. -/
structure Simulation where
  description : String
  estimated_win_rate : ℚ
  uplift_percent : ℚ
  revenue_estimate : Option ℚ := none
  confidence : Option String := none
  from_qual : Bool := false
  deriving Repr, DecidableEq

/-- One qualitative category record `{frequency, count, examples}`. -/
structure QualCategory where
  frequency : ℚ
  count : ℕ
  examples : List String := []
  deriving Repr, DecidableEq

/-- The `win_drivers`/`loss_risks` buckets of `qualitative_insights`; a
bucket is `none` when the corresponding dict key is absent. -/
structure QualInsights where
  win_drivers : Option (List (String × QualCategory)) := none
  loss_risks : Option (List (String × QualCategory)) := none
  deriving Repr, DecidableEq

/-- One sector segment of the qualitative statistics (buckets may be
absent: the source tests `if cat_type in seg_data`). -/
structure SegData where
  win_drivers : Option (List (String × QualCategory)) := none
  loss_risks : Option (List (String × QualCategory)) := none
  deriving Repr, DecidableEq

/-- The qualitative statistics input (§6 of the spec): overall buckets
plus per-sector segments (`segmented` absent ⇒ `[]`, matching
`qual_stats.get("segmented", {})`). -/
structure QualStats where
  win_drivers : List (String × QualCategory)
  loss_risks : List (String × QualCategory)
  segmented : List (String × SegData) := []
  deriving Repr, DecidableEq

/-- One dimension of the statistics input: parallel `win_rate` and `lift`
dicts. -/
structure DimTable where
  win_rate : List (String × ℚ)
  lift : List (String × ℚ)
  deriving Repr, DecidableEq

/-- The sales-rep dimension additionally has `sample_size`. -/
structure RepTable where
  win_rate : List (String × ℚ)
  lift : List (String × ℚ)
  sample_size : List (String × ℕ)
  deriving Repr, DecidableEq

/-- The statistics input consumed by `_get_relevant_stats` (spec §6). -/
structure Stats where
  overall_win_rate : ℚ
  avg_cycle_days_won : ℚ
  avg_cycle_days_lost : ℚ
  correlations_sales_price : ℚ
  product : DimTable
  account_sector : DimTable
  account_region : DimTable
  sales_rep : RepTable
  product_sector_win_rates : List (String × ℚ)
  avg_revenue_by_product : List (String × ℚ)
  deriving Repr, DecidableEq

/-- The extracted attributes handed to stats assembly (all optional). -/
structure ExtractedAttrs where
  product : Option String := none
  sector : Option String := none
  region : Option String := none
  current_rep : Option String := none
  sales_price : Option ℚ := none
  expected_revenue : Option ℚ := none
  deriving Repr, DecidableEq

/-- One entry of `win_probability_improvements` (the templated
`explanation` sentence repeats `source_type` and `uplift_percent` and is
not carried separately). -/
structure WinProbImprovement where
  rank : ℕ
  recommendation : String
  uplift_percent : ℚ
  confidence : String
  source_type : String
  deriving Repr, DecidableEq

/-- The assembled `relevant` structure.  Dict keys the source only sets on
some paths are `Option`s (`none` = key absent); `price_insight` /
`revenue_insight` keep the numeric value their formatted sentence embeds. -/
structure RelevantStats where
  overall_win_rate : ℚ
  avg_cycle_days_won : ℚ
  avg_cycle_days_lost : ℚ
  correlations_sales_price : ℚ
  products : List (String × WinLift)
  avg_revenue_by_product : Option (List (String × ℚ)) := none
  sector : List (String × WinLift)
  product_sector : Option (List (String × ℚ)) := none
  region : Option (List (String × WinLift)) := none
  current_rep : Option RepInfo := none
  top_reps : List RepInfo
  qualitative_insights : QualInsights
  qual_lift_estimate : Option ℚ := none
  price_insight : Option ℚ := none
  revenue_insight : Option ℚ := none
  simulations : List Simulation
  win_probability_improvements : List WinProbImprovement
  deriving Repr, DecidableEq

deriving instance DecidableEq for Except

/-! ## The per-block embedding of `_get_relevant_stats`
(`SalesAdvisor/sales_advisor_engine.py`, lines 533-882).  Each block is a
function of exactly the data the corresponding source block touches; the
orchestration below chains them in source order inside `Except String`,
so the first Python exception is the error value. -/

/-- Rendering of an optional string inside an f-string: Python prints
`None` for `None`. -/
def pyOptStr : Option String → String
  | some s => s
  | none => "None"

/-- `x.lower()` on a possibly-`None` value: Python raises
`AttributeError` when `x` is `None` (engine line 627 does exactly this
when the combination block runs with an unresolved sector). -/
def pyLowerE : Option String → Except String String
  | some s => .ok (pyLower s)
  | none => .error "AttributeError: 'NoneType' object has no attribute 'lower'"

/-- Engine product block (lines 554-576) and sector block (lines
589-611), which are the same logic on different tables: a resolved key
yields the singleton matched mapping, an unresolved key yields the global
top-3 lift table entries (sorted descending by lift, ties in dict order;
`win_rate`/`lift` are then read with raising `[]`-indexing). -/
def engine_dimension_block (t : DimTable) (key : Option String) :
    Except String (List (String × WinLift)) :=
  match key with
  | some k => do
    let wr ← dgetE t.win_rate k
    let lf ← dgetE t.lift k
    pure [(k, ⟨wr, lf⟩)]
  | none =>
    (sortDescBy (fun p => p.2) t.lift).take 3 |>.foldlM (fun acc kv => do
      let wr ← dgetE t.win_rate kv.1
      let lf ← dgetE t.lift kv.1
      pure (dinsert acc kv.1 ⟨wr, lf⟩)) []

/-- Engine lines 578-579: when the products mapping is non-empty (dict
truthiness), build `avg_revenue_by_product` for those keys by raising
`[]`-indexing; otherwise leave the key absent. -/
def avgRevenueBlock (rev : List (String × ℚ))
    (products : List (String × WinLift)) :
    Except String (Option (List (String × ℚ))) :=
  if products.isEmpty then pure none
  else do
    let m ← products.foldlM (fun acc kv => do
      let v ← dgetE rev kv.1
      pure (dinsert acc kv.1 v)) []
    pure (some m)

/-- Engine lines 613-639 (= app.py lines 332-353): the product-sector
combination block.  Only runs when `product_key` is truthy; the composite
key uses the f-string rendering of `sector_key`; the candidate scan calls
`sector_key.lower()` per splittable table key — an `AttributeError` when
`sector_key` is `None`; survivors are ranked by win rate descending, the
matched product excluded, and written back under their canonical table
key. -/
def combinationBlock (table : List (String × ℚ))
    (product_key sector_key : Option String) :
    Except String (Option (List (String × ℚ))) :=
  match product_key with
  | none => pure none
  | some pk => do
    let prod_sec_key :=
      case_insensitive_lookup (some (pk ++ "_" ++ pyOptStr sector_key)) table
    let init ← match prod_sec_key with
      | some psk => do
        let v ← dgetE table psk
        pure [(psk, v)]
      | none => pure ([] : List (String × ℚ))
    let sec_combos ← table.foldlM (fun acc kv =>
      match pySplitFirst kv.1 with
      | some parts => do
        let sl ← pyLowerE sector_key
        pure (if pyLower parts.2 == sl then acc ++ [(parts.1, kv.2)] else acc)
      | none => pure acc) ([] : List (String × ℚ))
    let res :=
      if sec_combos.isEmpty then init
      else
        ((sortDescBy (fun p => p.2) sec_combos).take 3).foldl (fun acc pv =>
          if pyLower pv.1 != pyLower pk then
            match case_insensitive_lookup
                (some (pv.1 ++ "_" ++ pyOptStr sector_key)) table with
            | some ck => dinsert acc ck pv.2
            | none => acc
          else acc) init
    pure (some res)

/-- Engine lines 641-651: the region mapping exists only when the region
key resolves; there is no alternatives fallback for this dimension. -/
def regionBlock (t : DimTable) (region_key : Option String) :
    Except String (Option (List (String × WinLift))) :=
  match region_key with
  | none => pure none
  | some rk => do
    let wr ← dgetE t.win_rate rk
    let lf ← dgetE t.lift rk
    pure (some [(rk, ⟨wr, lf⟩)])

/-- Engine lines 655-663: `current_rep` exists only when the rep key
resolves; no alternatives fallback for this dimension either. -/
def currentRepBlock (t : RepTable) (key : Option String) :
    Except String (Option RepInfo) :=
  match key with
  | none => pure none
  | some k => do
    let wr ← dgetE t.win_rate k
    let lf ← dgetE t.lift k
    let ss ← dgetE t.sample_size k
    pure (some ⟨k, wr, lf, ss⟩)

/-- Engine lines 664-673: the unconditional global top-5 reps by lift
(the comprehension iterates the lift dict, so each entry's lift is its
own dict value; `win_rate`/`sample_size` are raising lookups). -/
def topRepsBlock (t : RepTable) : Except String (List RepInfo) := do
  let entries ← t.lift.mapM (fun kv => do
    let wr ← dgetE t.win_rate kv.1
    let ss ← dgetE t.sample_size kv.1
    pure (RepInfo.mk kv.1 wr kv.2 ss))
  pure ((sortDescBy (fun r => r.lift) entries).take 5)

/-- Engine lines 675-701: the quantitative simulations, in construction
order — sector adjustment (the engine's `relevant["sector"]` always
exists, so the guard reduces to `sector_key` being truthy; its lift is
re-read from the assembled mapping), then one `Switch to` simulation per
products entry (`revenue_estimate` via `.get(prod, 0)`), then one
`Assign to` simulation per top rep. -/
def baselineSims (baseline : ℚ) (sector_key : Option String)
    (sectorMap : List (String × WinLift))
    (products : List (String × WinLift))
    (rev : List (String × ℚ)) (top_reps : List RepInfo) :
    Except String (List Simulation) := do
  let s1 ← match sector_key with
    | some sk => do
      let wl ← dgetE sectorMap sk
      pure [{ description := "Baseline adjusted for " ++ sk ++ " sector",
              estimated_win_rate := baseline * wl.lift,
              uplift_percent := (wl.lift - 1) * 100 : Simulation }]
    | none => pure ([] : List Simulation)
  let s2 := products.map (fun kv =>
    { description := "Switch to " ++ kv.1,
      estimated_win_rate := baseline * kv.2.lift,
      uplift_percent := (kv.2.lift - 1) * 100,
      revenue_estimate := some (dgetD rev kv.1 0) : Simulation })
  let s3 := top_reps.map (fun r =>
    { description := "Assign to " ++ r.name,
      estimated_win_rate := baseline * r.lift,
      uplift_percent := (r.lift - 1) * 100,
      confidence := some (if r.sample_size > 200 then "High" else "Medium")
      : Simulation })
  pure (s1 ++ s2 ++ s3)

/-- The overall fallback of the qualitative selector (engine lines
723-731): filter a bucket to `frequency > 0.1`, then
`Counter(...).most_common(3)` — a stable descending sort by frequency
truncated to 3 (ties keep dict order), each kept category re-indexed to
its own record. -/
def topCats (l : List (String × QualCategory)) : List (String × QualCategory) :=
  (sortDescBy (fun kv => kv.2.frequency)
    (l.filter (fun kv => decide ((1:ℚ)/10 < kv.2.frequency)))).take 3

/-- Engine lines 703-732: qualitative insights.  The segmented branch
(raw `sector` attribute resolved against `qual_stats["segmented"]`) keeps
each present bucket filtered to `frequency > 0.1`; the fallback branch
fills both buckets with the overall top-3 above the same threshold. -/
def qualSelect (qual : QualStats) (sector : Option String) :
    Except String QualInsights := do
  match case_insensitive_lookup sector qual.segmented with
  | some qsk => do
    let seg ← dgetE qual.segmented qsk
    pure { win_drivers := seg.win_drivers.map
             (fun l => l.filter (fun kv => decide ((1:ℚ)/10 < kv.2.frequency))),
           loss_risks := seg.loss_risks.map
             (fun l => l.filter (fun kv => decide ((1:ℚ)/10 < kv.2.frequency))) }
  | none =>
    pure { win_drivers := some (topCats qual.win_drivers),
           loss_risks := some (topCats qual.loss_risks) }

/-- Python `max(d, key=lambda k: d[k][...])` over a non-empty dict keeps
the first maximal entry (later entries replace only on strictly greater). -/
def maxByFreq (hd : String × QualCategory) (tl : List (String × QualCategory)) :
    String × QualCategory :=
  tl.foldl (fun best x => if x.2.frequency > best.2.frequency then x else best) hd

/-- Engine lines 734-762: when the loss-risks bucket exists and is
non-empty, take the top risk, consult the uplift-estimation LLM
(`llm = none` models `float(...)` raising `ValueError`): a parsed value
becomes `qual_lift_estimate` and one `from_qual` simulation; a parse
failure yields the fallback estimate `(1 - top_risk_freq) * 10` and no
simulation.  Returns the estimate and the simulations to append. -/
def qualLiftStep (baseline : ℚ) (qi : QualInsights) (llm : Option ℚ) :
    Option ℚ × List Simulation :=
  match qi.loss_risks with
  | some (hd :: tl) =>
    let top := maxByFreq hd tl
    match llm with
    | some q =>
      (some q,
       [{ description := "Address top qual risk '" ++ top.1 ++ "'",
          estimated_win_rate := baseline * (1 + q / 100),
          uplift_percent := q, from_qual := true : Simulation }])
    | none => (some ((1 - top.2.frequency) * 10), [])
  | _ => (none, [])

/-- Python truthiness of an optional number (`if price:`): `0` and `None`
are falsy. -/
def truthyQ : Option ℚ → Option ℚ
  | some q => if q = 0 then none else some q
  | none => none

/-- Engine lines 807-822: decorate the first `min(3, len(simulations))`
sorted simulations with `rank`, defaulted `confidence`, and
`source_type`. -/
def buildWPI (sims : List Simulation) : List WinProbImprovement :=
  (sims.take 3).enum.map (fun p =>
    { rank := p.1 + 1,
      recommendation := p.2.description,
      uplift_percent := p.2.uplift_percent,
      confidence := p.2.confidence.getD "Medium",
      source_type :=
        if p.2.from_qual then "Qualitative insight" else "Quantitative simulation" })

/-- Engine lines 778-825: the deterministic pre-sort pass — simulations
by `uplift_percent` descending (every simulation carries the field, so
the `x.get("uplift_percent", 0)` default is inert), each present
qualitative bucket by `frequency` descending, and the derived
`win_probability_improvements`. -/
def finalize (r : RelevantStats) : RelevantStats :=
  let sims := sortDescBy (fun s => s.uplift_percent) r.simulations
  { r with
    simulations := sims,
    qualitative_insights :=
      { win_drivers := r.qualitative_insights.win_drivers.map
          (sortDescBy (fun kv => kv.2.frequency)),
        loss_risks := r.qualitative_insights.loss_risks.map
          (sortDescBy (fun kv => kv.2.frequency)) },
    win_probability_improvements := buildWPI sims }

/-- Dispatch of the combination block as the engine actually places it:
inside the sector-*unresolved* branch (engine lines 613-639 sit under the
`else:` of line 599), so it runs exactly when `sector_key` is `None` and
the resolved-sector branch leaves `product_sector` absent. -/
def productSectorStep (table : List (String × ℚ))
    (product_key sector_key : Option String) :
    Except String (Option (List (String × ℚ))) :=
  match sector_key with
  | some _ => pure none
  | none => combinationBlock table product_key none

/-- `_get_relevant_stats` (engine lines 533-882), blocks chained in
source order.  Note the placement the source actually has: the
combination block sits inside the sector-*unresolved* branch (engine
lines 613-639 are indented under the `else:` of line 599), so it runs
exactly when `sector_key` is `None`. -/
def engine_get_relevant_stats (stats : Stats) (qual : QualStats)
    (llmUplift : Option ℚ) (attrs : ExtractedAttrs) :
    Except String RelevantStats := do
  let product_key := case_insensitive_lookup attrs.product stats.product.win_rate
  let products ← engine_dimension_block stats.product product_key
  let avg_rev ← avgRevenueBlock stats.avg_revenue_by_product products
  let sector_key :=
    case_insensitive_lookup attrs.sector stats.account_sector.win_rate
  let sectorMap ← engine_dimension_block stats.account_sector sector_key
  let product_sector ← productSectorStep stats.product_sector_win_rates
    product_key sector_key
  let region ← regionBlock stats.account_region
    (case_insensitive_lookup attrs.region stats.account_region.win_rate)
  let current_rep ← currentRepBlock stats.sales_rep
    (case_insensitive_lookup attrs.current_rep stats.sales_rep.win_rate)
  let top_reps ← topRepsBlock stats.sales_rep
  let sims0 ← baselineSims stats.overall_win_rate sector_key sectorMap products
    stats.avg_revenue_by_product top_reps
  let qi ← qualSelect qual attrs.sector
  let qstep := qualLiftStep stats.overall_win_rate qi llmUplift
  pure (finalize
    { overall_win_rate := stats.overall_win_rate,
      avg_cycle_days_won := stats.avg_cycle_days_won,
      avg_cycle_days_lost := stats.avg_cycle_days_lost,
      correlations_sales_price := stats.correlations_sales_price,
      products := products,
      avg_revenue_by_product := avg_rev,
      sector := sectorMap,
      product_sector := product_sector,
      region := region,
      current_rep := current_rep,
      top_reps := top_reps,
      qualitative_insights := qi,
      qual_lift_estimate := qstep.1,
      price_insight := truthyQ attrs.sales_price,
      revenue_insight := truthyQ attrs.expected_revenue,
      simulations := sims0 ++ qstep.2,
      win_probability_improvements := [] })

/-- The app.py variant of a resolved dimension mapping (product block
lines 283-301 and sector block lines 313-330, which are the same logic
on different tables): matched record first, then up to 3 *other* keys —
the lift table filtered by `k.lower() != product_key.lower()` — ranked
by lift descending.  An unresolved key leaves the mapping absent in this
variant. -/
def app_dimension_block (t : DimTable) (attr : Option String) :
    Except String (Option (List (String × WinLift))) :=
  match case_insensitive_lookup attr t.win_rate with
  | none => pure none
  | some k => do
    let wr ← dgetE t.win_rate k
    let lf ← dgetE t.lift k
    let alts := (sortDescBy (fun p => p.2)
      (t.lift.filter (fun p => pyLower p.1 != pyLower k))).take 3
    let m ← alts.foldlM (fun acc kv => do
      let wr2 ← dgetE t.win_rate kv.1
      let lf2 ← dgetE t.lift kv.1
      pure (dinsert acc kv.1 ⟨wr2, lf2⟩)) [(k, ⟨wr, lf⟩)]
    pure (some m)

/-! ## A small concrete statistics fixture (used by the concrete
evaluations below). -/

/-- Product dimension fixture. -/
def fxProduct : DimTable :=
  { win_rate := [("Alpha", 69/100), ("Beta", 78/100), ("Gamma", 54/100),
                 ("Delta", 63/100)],
    lift := [("Alpha", 115/100), ("Beta", 130/100), ("Gamma", 90/100),
             ("Delta", 105/100)] }

/-- Sector dimension fixture. -/
def fxSector : DimTable :=
  { win_rate := [("Tech", 72/100), ("Finance", 48/100)],
    lift := [("Tech", 120/100), ("Finance", 80/100)] }

/-- Region dimension fixture. -/
def fxRegion : DimTable :=
  { win_rate := [("EMEA", 66/100)], lift := [("EMEA", 110/100)] }

/-- Sales-rep dimension fixture. -/
def fxRep : RepTable :=
  { win_rate := [("R1", 75/100), ("R2", 55/100)],
    lift := [("R1", 125/100), ("R2", 92/100)],
    sample_size := [("R1", 250), ("R2", 100)] }

/-- A full statistics fixture with consistent key sets. -/
def fixtureStats : Stats :=
  { overall_win_rate := 60/100,
    avg_cycle_days_won := 30,
    avg_cycle_days_lost := 45,
    correlations_sales_price := -(12/100),
    product := fxProduct,
    account_sector := fxSector,
    account_region := fxRegion,
    sales_rep := fxRep,
    product_sector_win_rates := [("Alpha_Tech", 50/100), ("Beta_Tech", 58/100)],
    avg_revenue_by_product := [("Alpha", 10000), ("Beta", 12000),
                               ("Gamma", 8000), ("Delta", 9000)] }

/-- A qualitative-statistics fixture (one segmented sector, boundary
frequency `0.1` present to exercise the strict threshold). -/
def fixtureQual : QualStats :=
  { win_drivers := [("relationship", { frequency := 1/2, count := 10 }),
                    ("niche", { frequency := 1/20, count := 1 }),
                    ("price_ok", { frequency := 3/10, count := 6 })],
    loss_risks := [("pricing_high", { frequency := 2/5, count := 8 }),
                   ("small", { frequency := 2/25, count := 2 }),
                   ("timing", { frequency := 3/20, count := 3 })],
    segmented := [("Tech",
      { win_drivers := some [("relationship", { frequency := 3/5, count := 6 }),
                             ("rare", { frequency := 1/25, count := 1 })],
        loss_risks := some [("pricing_high", { frequency := 9/20, count := 5 }),
                            ("tiny", { frequency := 1/10, count := 1 })] })] }

/-- An all-empty `RelevantStats` used only as the `getD` default below. -/
def emptyRelevant : RelevantStats :=
  { overall_win_rate := 0, avg_cycle_days_won := 0, avg_cycle_days_lost := 0,
    correlations_sales_price := 0, products := [], sector := [],
    top_reps := [], qualitative_insights := {}, simulations := [],
    win_probability_improvements := [] }

/-- Attributes that resolve in every dimension (differing case). -/
def attrsResolved : ExtractedAttrs :=
  { product := some "alpha", sector := some "TECH",
    region := some "emea", current_rep := some "r1" }

/-- Attributes that resolve in no statistics table. -/
def attrsUnknown : ExtractedAttrs :=
  { product := some "Widget", sector := some "Underwater Basket Weaving",
    region := some "Nowhere", current_rep := some "Nobody" }

/-- The assembled result on `fixtureStats`/`fixtureQual` with every
attribute resolved and a parsed LLM uplift of `12`. -/
def resolvedResult : RelevantStats :=
  ((engine_get_relevant_stats fixtureStats fixtureQual (some 12)
    attrsResolved).toOption).getD emptyRelevant

/-- The assembled result with every attribute resolved and a failing LLM
parse. -/
def resolvedResultNoLLM : RelevantStats :=
  ((engine_get_relevant_stats fixtureStats fixtureQual none
    attrsResolved).toOption).getD emptyRelevant

/-- The assembled result when no attribute resolves anywhere. -/
def unknownResult : RelevantStats :=
  ((engine_get_relevant_stats fixtureStats fixtureQual none
    attrsUnknown).toOption).getD emptyRelevant

/-- Resolved product but unresolvable sector — the input that drives the
engine's combination block in its sector-unresolved position. -/
def attrsTypoSector : ExtractedAttrs :=
  { product := some "alpha", sector := some "Fnance" }

/-! ## Lemma layer -/

theorem except_bind_ok {α β : Type} {e : Except String α}
    {f : α → Except String β} {b : β} :
    (e >>= f) = .ok b ↔ ∃ a, e = .ok a ∧ f a = .ok b := by
  cases e <;> simp [Bind.bind, Except.bind]

theorem except_pure_ok {α : Type} {a b : α} :
    (pure a : Except String α) = .ok b ↔ a = b := by
  simp [pure, Except.pure]

theorem dgetE_ok {α : Type} {d : List (String × α)} {k : String} {v : α} :
    dgetE d k = .ok v ↔ dget d k = some v := by
  unfold dgetE
  cases h : dget d k <;> simp [h]

theorem dget_isSome_of_mem {α : Type} {d : List (String × α)} {k : String}
    (h : k ∈ d.map Prod.fst) : (dget d k).isSome := by
  rcases List.mem_map.mp h with ⟨p, hp, hk⟩
  have hfind : (d.find? (fun p => p.1 == k)).isSome :=
    List.find?_isSome.mpr ⟨p, hp, by simp [hk]⟩
  unfold dget
  cases hfound : d.find? (fun p => p.1 == k)
  · rw [hfound] at hfind; simp at hfind
  · simp

theorem dget_mem {α : Type} {d : List (String × α)} {k : String} {v : α}
    (h : dget d k = some v) : (k, v) ∈ d := by
  unfold dget at h
  cases hf : d.find? (fun p => p.1 == k) with
  | none => simp [hf] at h
  | some p =>
    simp [hf] at h
    have hmem := List.mem_of_find?_eq_some hf
    have hkey := List.find?_some hf
    simp at hkey
    cases p
    simp_all

/-- `dinsert` on a fresh key is append. -/
theorem dinsert_eq_append {α : Type} {d : List (String × α)} {k : String}
    {v : α} (h : k ∉ d.map Prod.fst) : dinsert d k v = d ++ [(k, v)] := by
  unfold dinsert
  have : d.any (fun p => p.1 == k) = false := by
    simp only [List.any_eq_false, beq_iff_eq]
    intro p hp hk
    exact h (hk ▸ List.mem_map_of_mem Prod.fst hp)
  simp [this]

/-! ### Stable descending sort -/

theorem mem_insertDesc {α : Type} {key : α → ℚ} {x a : α} {l : List α} :
    a ∈ insertDesc key x l ↔ a = x ∨ a ∈ l := by
  induction l with
  | nil => simp [insertDesc]
  | cons y ys ih =>
    unfold insertDesc
    split <;> simp [ih] <;> tauto

theorem insertDesc_perm {α : Type} (key : α → ℚ) (x : α) (l : List α) :
    List.Perm (insertDesc key x l) (x :: l) := by
  induction l with
  | nil => rfl
  | cons y ys ih =>
    unfold insertDesc
    split
    · rfl
    · exact (ih.cons y).trans (List.Perm.swap x y ys)

theorem sortDescBy_perm {α : Type} (key : α → ℚ) (l : List α) :
    List.Perm (sortDescBy key l) l := by
  induction l with
  | nil => rfl
  | cons x xs ih =>
    exact (insertDesc_perm key x (sortDescBy key xs)).trans (ih.cons x)

theorem mem_sortDescBy {α : Type} {key : α → ℚ} {a : α} {l : List α} :
    a ∈ sortDescBy key l ↔ a ∈ l :=
  (sortDescBy_perm key l).mem_iff

theorem insertDesc_sorted {α : Type} {key : α → ℚ} {x : α} {l : List α}
    (h : l.Pairwise (fun a b => key b ≤ key a)) :
    (insertDesc key x l).Pairwise (fun a b => key b ≤ key a) := by
  induction l with
  | nil => simp [insertDesc]
  | cons y ys ih =>
    unfold insertDesc
    rcases List.pairwise_cons.mp h with ⟨hy, hys⟩
    split
    · rename_i hxy
      have hyx : key y ≤ key x := hxy
      refine List.pairwise_cons.mpr ⟨?_, h⟩
      intro z hz
      rcases List.mem_cons.mp hz with rfl | hz
      · exact hyx
      · exact (hy z hz).trans hyx
    · rename_i hxy
      have hxy' : key x < key y := lt_of_not_le hxy
      refine List.pairwise_cons.mpr ⟨?_, ih hys⟩
      intro z hz
      rcases mem_insertDesc.mp hz with rfl | hz
      · exact le_of_lt hxy'
      · exact hy z hz

theorem sortDescBy_sorted {α : Type} (key : α → ℚ) (l : List α) :
    (sortDescBy key l).Pairwise (fun a b => key b ≤ key a) := by
  induction l with
  | nil => simp [sortDescBy]
  | cons x xs ih => exact insertDesc_sorted ih

/-- Stability of `insertDesc`, phrased as filter preservation: every
element passed over has a strictly larger key, so for the key-class of
`x` the insertion is a `cons`, and every other key-class is untouched. -/
theorem insertDesc_filter_eq {α : Type} {key : α → ℚ} {x : α} {l : List α}
    {q : ℚ} (hx : key x = q) :
    (insertDesc key x l).filter (fun a => key a == q) =
      x :: l.filter (fun a => key a == q) := by
  induction l with
  | nil => simp [insertDesc, List.filter_cons, hx]
  | cons y ys ih =>
    unfold insertDesc
    split
    · simp [List.filter_cons, hx]
    · rename_i hxy
      have hxy' : key x < key y := lt_of_not_le hxy
      have hy : (key y == q) = false := by
        simp only [beq_eq_false_iff_ne, ne_eq]
        intro hyq
        rw [hx, hyq] at hxy'
        exact lt_irrefl q hxy'
      simp [List.filter_cons, hy, ih]

theorem insertDesc_filter_ne {α : Type} {key : α → ℚ} {x : α} {l : List α}
    {q : ℚ} (hx : key x ≠ q) :
    (insertDesc key x l).filter (fun a => key a == q) =
      l.filter (fun a => key a == q) := by
  induction l with
  | nil => simp [insertDesc, List.filter_cons, hx]
  | cons y ys ih =>
    unfold insertDesc
    split
    · simp [List.filter_cons, hx]
    · by_cases hy : key y = q <;> simp [List.filter_cons, hy, ih, hx]

/-- Stability of the sort: every key-class appears in the output in its
original relative order. -/
theorem sortDescBy_stable {α : Type} (key : α → ℚ) (l : List α) (q : ℚ) :
    (sortDescBy key l).filter (fun a => key a == q) =
      l.filter (fun a => key a == q) := by
  induction l with
  | nil => rfl
  | cons x xs ih =>
    show (insertDesc key x (sortDescBy key xs)).filter _ = _
    by_cases hx : key x = q
    · rw [insertDesc_filter_eq hx, ih]
      simp [List.filter_cons, hx]
    · rw [insertDesc_filter_ne hx, ih]
      simp [List.filter_cons, hx]

/-! ### Case-insensitive lookup -/

theorem lookup_unfold {α : Type} {d : List (String × α)} {s : String}
    (hs : s ≠ "") (hd : d ≠ []) :
    case_insensitive_lookup (some s) d =
      ((d.map Prod.fst).reverse).find? (fun k => pyLower k == pyLower s) := by
  unfold case_insensitive_lookup
  have h1 : (s == "") = false := beq_eq_false_iff_ne.mpr hs
  have h2 : d.isEmpty = false := by
    cases d
    · exact absurd rfl hd
    · rfl
  simp [h1, h2]

theorem lookup_mem {α : Type} {d : List (String × α)} {s k : String}
    (h : case_insensitive_lookup (some s) d = some k) :
    k ∈ d.map Prod.fst ∧ pyLower k = pyLower s := by
  by_cases hs : s = ""
  · rw [hs] at h
    unfold case_insensitive_lookup at h
    simp at h
  by_cases hd : d = []
  · rw [hd] at h
    unfold case_insensitive_lookup at h
    simp [List.isEmpty] at h
  rw [lookup_unfold hs hd] at h
  have hmem := List.mem_of_find?_eq_some h
  have hpred := List.find?_some h
  rw [List.mem_reverse] at hmem
  exact ⟨hmem, by simpa using hpred⟩

theorem lookup_isSome {α : Type} {d : List (String × α)} {s k : String}
    (hs : s ≠ "") (hk : k ∈ d.map Prod.fst) (hlow : pyLower k = pyLower s) :
    (case_insensitive_lookup (some s) d).isSome := by
  have hd : d ≠ [] := by
    intro h
    rw [h] at hk
    simp at hk
  rw [lookup_unfold hs hd]
  exact List.find?_isSome.mpr ⟨k, by simpa using hk, by simp [hlow]⟩

theorem lookup_congr {α : Type} {d : List (String × α)} {s₁ s₂ : String}
    (h₁ : s₁ ≠ "") (h₂ : s₂ ≠ "") (hlow : pyLower s₁ = pyLower s₂) :
    case_insensitive_lookup (some s₁) d = case_insensitive_lookup (some s₂) d := by
  by_cases hd : d = []
  · subst hd
    unfold case_insensitive_lookup
    simp [List.isEmpty]
  rw [lookup_unfold h₁ hd, lookup_unfold h₂ hd, hlow]

theorem lookup_none_of_no_match {α : Type} {d : List (String × α)} {s : String}
    (h : ∀ k ∈ d.map Prod.fst, pyLower k ≠ pyLower s) :
    case_insensitive_lookup (some s) d = none := by
  by_cases hs : s = ""
  · subst hs
    unfold case_insensitive_lookup
    simp
  by_cases hd : d = []
  · subst hd
    unfold case_insensitive_lookup
    simp [List.isEmpty]
  rw [lookup_unfold hs hd]
  exact List.find?_eq_none.mpr (fun k hk => by
    show ¬(pyLower k == pyLower s) = true
    simpa using h k (by simpa using List.mem_reverse.mp hk))

/-! ### First-underscore splitting -/

theorem splitFirstAux_no_underscore {a : List Char} (ha : '_' ∉ a) :
    ∀ b, splitFirstAux (a ++ '_' :: b) = some (a, b) := by
  induction a with
  | nil => intro b; simp [splitFirstAux]
  | cons c cs ih =>
    intro b
    have hc : c ≠ '_' := fun h => ha (h ▸ List.mem_cons_self c cs)
    have hcs : '_' ∉ cs := fun h => ha (List.mem_cons_of_mem c h)
    simp [splitFirstAux, hc, ih hcs]

theorem pySplitFirst_append {a b : String} (ha : '_' ∉ a.data) :
    pySplitFirst (a ++ "_" ++ b) = some (a, b) := by
  have hdata : (a ++ "_" ++ b).data = a.data ++ '_' :: b.data := by
    simp [String.data_append]
  unfold pySplitFirst
  rw [hdata, splitFirstAux_no_underscore ha]
  rfl

theorem mem_secCombos {table : List (String × ℚ)} {sk p : String} {v : ℚ} :
    (p, v) ∈ secCombos table sk ↔
      ∃ k rest, (k, v) ∈ table ∧ pySplitFirst k = some (p, rest) ∧
        pyLower rest = pyLower sk := by
  unfold secCombos
  rw [List.mem_filterMap]
  constructor
  · rintro ⟨⟨k, w⟩, hmem, hf⟩
    cases hsplit : pySplitFirst k with
    | none => rw [hsplit] at hf; simp at hf
    | some parts =>
      obtain ⟨p1, p2⟩ := parts
      rw [hsplit] at hf
      simp only at hf
      split at hf
      · rename_i hlw
        simp only [Option.some.injEq, Prod.mk.injEq] at hf
        obtain ⟨rfl, rfl⟩ := hf
        exact ⟨k, p2, hmem, hsplit, by simpa using hlw⟩
      · simp at hf
  · rintro ⟨k, rest, hmem, hsplit, hlow⟩
    refine ⟨(k, v), hmem, ?_⟩
    rw [hsplit]
    simp [hlow]

/-! ### Inversion of the assembled result -/

theorem engine_ok_inv {stats : Stats} {qual : QualStats} {llm : Option ℚ}
    {attrs : ExtractedAttrs} {r : RelevantStats}
    (h : engine_get_relevant_stats stats qual llm attrs = .ok r) :
    ∃ products avg_rev sectorMap product_sector region current_rep top_reps
      sims0 qi,
      engine_dimension_block stats.product
        (case_insensitive_lookup attrs.product stats.product.win_rate) =
        .ok products ∧
      avgRevenueBlock stats.avg_revenue_by_product products = .ok avg_rev ∧
      engine_dimension_block stats.account_sector
        (case_insensitive_lookup attrs.sector stats.account_sector.win_rate) =
        .ok sectorMap ∧
      productSectorStep stats.product_sector_win_rates
        (case_insensitive_lookup attrs.product stats.product.win_rate)
        (case_insensitive_lookup attrs.sector stats.account_sector.win_rate) =
        .ok product_sector ∧
      regionBlock stats.account_region
        (case_insensitive_lookup attrs.region stats.account_region.win_rate) =
        .ok region ∧
      currentRepBlock stats.sales_rep
        (case_insensitive_lookup attrs.current_rep stats.sales_rep.win_rate) =
        .ok current_rep ∧
      topRepsBlock stats.sales_rep = .ok top_reps ∧
      baselineSims stats.overall_win_rate
        (case_insensitive_lookup attrs.sector stats.account_sector.win_rate)
        sectorMap products stats.avg_revenue_by_product top_reps = .ok sims0 ∧
      qualSelect qual attrs.sector = .ok qi ∧
      r.overall_win_rate = stats.overall_win_rate ∧
      r.products = products ∧
      r.avg_revenue_by_product = avg_rev ∧
      r.sector = sectorMap ∧
      r.product_sector = product_sector ∧
      r.region = region ∧
      r.current_rep = current_rep ∧
      r.top_reps = top_reps ∧
      r.qualitative_insights.win_drivers =
        qi.win_drivers.map (sortDescBy (fun kv => kv.2.frequency)) ∧
      r.qualitative_insights.loss_risks =
        qi.loss_risks.map (sortDescBy (fun kv => kv.2.frequency)) ∧
      r.qual_lift_estimate = (qualLiftStep stats.overall_win_rate qi llm).1 ∧
      r.simulations = sortDescBy (fun s => s.uplift_percent)
        (sims0 ++ (qualLiftStep stats.overall_win_rate qi llm).2) ∧
      r.win_probability_improvements = buildWPI r.simulations := by
  unfold engine_get_relevant_stats at h
  simp only [except_bind_ok, except_pure_ok] at h
  obtain ⟨p, hp, av, hav, sm, hsm, ps, hps, rg, hrg, cr, hcr, tr, htr, s0, hs0,
    qi, hqi, hfin⟩ := h
  subst hfin
  exact ⟨p, av, sm, ps, rg, cr, tr, s0, qi, hp, hav, hsm, hps, hrg, hcr, htr,
    hs0, hqi, rfl, rfl, rfl, rfl, rfl, rfl, rfl, rfl, rfl, rfl, rfl, rfl, rfl⟩

/-! ### Properties of `finalize` and its ingredients -/

theorem finalize_wpi (x : RelevantStats) :
    (finalize x).win_probability_improvements =
      buildWPI ((finalize x).simulations) := rfl

theorem finalize_sims (x : RelevantStats) :
    (finalize x).simulations =
      sortDescBy (fun s => s.uplift_percent) x.simulations := rfl

theorem finalize_wd (x : RelevantStats) :
    (finalize x).qualitative_insights.win_drivers =
      x.qualitative_insights.win_drivers.map
        (sortDescBy (fun kv => kv.2.frequency)) := rfl

theorem finalize_lr (x : RelevantStats) :
    (finalize x).qualitative_insights.loss_risks =
      x.qualitative_insights.loss_risks.map
        (sortDescBy (fun kv => kv.2.frequency)) := rfl

theorem buildWPI_length (sims : List Simulation) :
    (buildWPI sims).length = min 3 sims.length := by
  simp [buildWPI]

theorem buildWPI_getElem (sims : List Simulation) (i : ℕ)
    (hi : i < (buildWPI sims).length) :
    ∃ hs : i < sims.length,
      (buildWPI sims)[i] =
        { rank := i + 1,
          recommendation := sims[i].description,
          uplift_percent := sims[i].uplift_percent,
          confidence := sims[i].confidence.getD "Medium",
          source_type := if sims[i].from_qual then "Qualitative insight"
            else "Quantitative simulation" } := by
  have hlen : (buildWPI sims).length = min 3 sims.length := buildWPI_length sims
  rw [hlen] at hi
  have hs : i < sims.length := by omega
  have hi3 : i < 3 := by omega
  refine ⟨hs, ?_⟩
  unfold buildWPI
  simp [List.getElem_map, List.getElem_enum, List.getElem_take]

theorem mem_topCats {l : List (String × QualCategory)}
    {kv : String × QualCategory} (h : kv ∈ topCats l) :
    (1:ℚ)/10 < kv.2.frequency ∧ kv ∈ l := by
  unfold topCats at h
  have h1 := List.take_subset 3 _ h
  have h2 := mem_sortDescBy.mp h1
  have h3 := List.mem_filter.mp h2
  exact ⟨by simpa using h3.2, h3.1⟩

theorem qualSelect_threshold {qual : QualStats} {sector : Option String}
    {qi : QualInsights} (h : qualSelect qual sector = .ok qi) :
    (∀ l, qi.win_drivers = some l → ∀ kv ∈ l, (1:ℚ)/10 < kv.2.frequency) ∧
    (∀ l, qi.loss_risks = some l → ∀ kv ∈ l, (1:ℚ)/10 < kv.2.frequency) := by
  unfold qualSelect at h
  cases hlk : case_insensitive_lookup sector qual.segmented with
  | some qsk =>
    rw [hlk] at h
    rw [except_bind_ok] at h
    obtain ⟨seg, hseg, hpure⟩ := h
    rw [except_pure_ok] at hpure
    subst hpure
    constructor
    · intro l hl kv hkv
      simp only [Option.map_eq_some'] at hl
      obtain ⟨l0, _, hfil⟩ := hl
      subst hfil
      have := List.mem_filter.mp hkv
      simpa using this.2
    · intro l hl kv hkv
      simp only [Option.map_eq_some'] at hl
      obtain ⟨l0, _, hfil⟩ := hl
      subst hfil
      have := List.mem_filter.mp hkv
      simpa using this.2
  | none =>
    rw [hlk] at h
    rw [except_pure_ok] at h
    subst h
    constructor
    · intro l hl kv hkv
      simp only [Option.some.injEq] at hl
      subst hl
      exact (mem_topCats hkv).1
    · intro l hl kv hkv
      simp only [Option.some.injEq] at hl
      subst hl
      exact (mem_topCats hkv).1

theorem maxByFreq_mem (hd : String × QualCategory)
    (tl : List (String × QualCategory)) : maxByFreq hd tl ∈ hd :: tl := by
  unfold maxByFreq
  induction tl generalizing hd with
  | nil => simp
  | cons y ys ih =>
    simp only [List.foldl_cons]
    rcases List.mem_cons.mp (ih (if y.2.frequency > hd.2.frequency then y else hd)) with heq | hmem
    · rw [heq]
      split
      · exact List.mem_cons_of_mem hd (List.mem_cons_self y ys)
      · exact List.mem_cons_self hd (y :: ys)
    · exact List.mem_cons_of_mem hd (List.mem_cons_of_mem y hmem)

theorem maxByFreq_ge (hd : String × QualCategory)
    (tl : List (String × QualCategory)) :
    ∀ x ∈ hd :: tl, x.2.frequency ≤ (maxByFreq hd tl).2.frequency := by
  unfold maxByFreq
  induction tl generalizing hd with
  | nil => simp
  | cons y ys ih =>
    intro x hx
    simp only [List.foldl_cons]
    have hbase : hd.2.frequency ≤
        (if y.2.frequency > hd.2.frequency then y else hd).2.frequency := by
      split
      · exact le_of_lt (by assumption)
      · exact le_rfl
    have hy : y.2.frequency ≤
        (if y.2.frequency > hd.2.frequency then y else hd).2.frequency := by
      split
      · exact le_rfl
      · exact le_of_not_lt (by assumption)
    rcases List.mem_cons.mp hx with rfl | hx2
    · exact hbase.trans (ih _ _ (List.mem_cons_self _ ys))
    · rcases List.mem_cons.mp hx2 with rfl | hx3
      · exact hy.trans (ih _ _ (List.mem_cons_self _ ys))
      · exact ih _ x (List.mem_cons_of_mem _ hx3)

theorem maxByFreq_freq_eq_sorted_head (hd0 hd : String × QualCategory)
    (tl0 tl : List (String × QualCategory))
    (hs : sortDescBy (fun kv => kv.2.frequency) (hd0 :: tl0) = hd :: tl) :
    (maxByFreq hd0 tl0).2.frequency = hd.2.frequency := by
  have hmem_max : maxByFreq hd0 tl0 ∈ sortDescBy (fun kv => kv.2.frequency)
      (hd0 :: tl0) := mem_sortDescBy.mpr (maxByFreq_mem hd0 tl0)
  rw [hs] at hmem_max
  have hsorted := sortDescBy_sorted (fun kv => kv.2.frequency) (hd0 :: tl0)
  rw [hs] at hsorted
  have hhd_mem : hd ∈ hd0 :: tl0 := mem_sortDescBy.mp
    (hs ▸ List.mem_cons_self hd tl)
  have h2 : hd.2.frequency ≤ (maxByFreq hd0 tl0).2.frequency :=
    maxByFreq_ge hd0 tl0 hd hhd_mem
  have h1 : (maxByFreq hd0 tl0).2.frequency ≤ hd.2.frequency := by
    rcases List.mem_cons.mp hmem_max with heq | hmem
    · rw [heq]
    · exact (List.pairwise_cons.mp hsorted).1 _ hmem
  exact le_antisymm h1 h2

theorem baselineSims_from_qual {baseline : ℚ} {sector_key : Option String}
    {sectorMap : List (String × WinLift)} {products : List (String × WinLift)}
    {rev : List (String × ℚ)} {top_reps : List RepInfo}
    {s0 : List Simulation}
    (h : baselineSims baseline sector_key sectorMap products rev top_reps =
      .ok s0) : ∀ s ∈ s0, s.from_qual = false := by
  unfold baselineSims at h
  rcases sector_key with _ | sk
  · simp only [except_bind_ok, except_pure_ok] at h
    obtain ⟨s1, hs1, hs0⟩ := h
    subst hs1
    subst hs0
    intro s hs
    rcases List.mem_append.mp hs with hs | hs
    · rcases List.mem_append.mp hs with hs | hs
      · simp at hs
      · rcases List.mem_map.mp hs with ⟨kv, _, rfl⟩; rfl
    · rcases List.mem_map.mp hs with ⟨rp, _, rfl⟩; rfl
  · simp only [except_bind_ok, except_pure_ok] at h
    obtain ⟨wl, hwl, s1, hs1, hs0⟩ := h
    subst hs1
    subst hs0
    intro s hs
    rcases List.mem_append.mp hs with hs | hs
    · rcases List.mem_append.mp hs with hs | hs
      · rcases List.mem_singleton.mp hs with rfl; rfl
      · rcases List.mem_map.mp hs with ⟨kv, _, rfl⟩; rfl
    · rcases List.mem_map.mp hs with ⟨rp, _, rfl⟩; rfl

/-! ## Claims -/

/-- C9: the case-insensitive lookup (engine `_case_insensitive_lookup`,
lines 525-531): a `None` or empty search and an unmatched search return
`None` without raising; when some table key's lowercase form equals the
search's lowercase form, the lookup returns an actual, canonically cased
table key with that lowercase form — exactly the given key when it is the
only such key — and the returned key is the same for every casing of the
search string. -/
theorem C9_case_insensitive_lookup {α : Type} (d : List (String × α)) (s : String) :
    (case_insensitive_lookup (none : Option String) d = none) ∧
    (case_insensitive_lookup (some "") d = none) ∧
    (∀ k, s ≠ "" → k ∈ d.map Prod.fst → pyLower k = pyLower s →
      ∃ k₀, case_insensitive_lookup (some s) d = some k₀ ∧
        k₀ ∈ d.map Prod.fst ∧ pyLower k₀ = pyLower s ∧
        ((∀ k₂ ∈ d.map Prod.fst, pyLower k₂ = pyLower s → k₂ = k) → k₀ = k)) ∧
    (∀ s₂, s ≠ "" → s₂ ≠ "" → pyLower s = pyLower s₂ →
      case_insensitive_lookup (some s) d = case_insensitive_lookup (some s₂) d) ∧
    ((∀ k ∈ d.map Prod.fst, pyLower k ≠ pyLower s) →
      case_insensitive_lookup (some s) d = none) := by
  refine ⟨rfl, by unfold case_insensitive_lookup; simp, ?_, ?_, ?_⟩
  · intro k hs hk hlow
    have hsome : (case_insensitive_lookup (some s) d).isSome := lookup_isSome hs hk hlow
    cases hres : case_insensitive_lookup (some s) d with
    | none => rw [hres] at hsome; simp at hsome
    | some k₀ =>
      rcases lookup_mem hres with ⟨hmem₀, hlow₀⟩
      exact ⟨k₀, rfl, hmem₀, hlow₀, fun huniq => huniq k₀ hmem₀ hlow₀⟩
  · intro s₂ hs hs₂ hlow
    exact lookup_congr hs hs₂ hlow
  · exact lookup_none_of_no_match

/-- Witness for C9 at a concrete table: the resolution conjunct and the
casing-invariance conjunct instantiated on `{"Finance": 0.5}`. -/
theorem C9_case_insensitive_lookup_witness :
    (∃ k₀, case_insensitive_lookup (some "FINANCE") [("Finance", (1:ℚ)/2)] = some k₀ ∧
      k₀ ∈ [("Finance", (1:ℚ)/2)].map Prod.fst ∧
      pyLower k₀ = pyLower "FINANCE" ∧
      ((∀ k₂ ∈ [("Finance", (1:ℚ)/2)].map Prod.fst,
          pyLower k₂ = pyLower "FINANCE" → k₂ = "Finance") → k₀ = "Finance")) ∧
    case_insensitive_lookup (some "FINANCE") [("Finance", (1:ℚ)/2)] =
      case_insensitive_lookup (some "finance") [("Finance", (1:ℚ)/2)] :=
  ⟨(C9_case_insensitive_lookup [("Finance", (1:ℚ)/2)] "FINANCE").2.2.1 "Finance"
      (by decide) (by decide) (by decide),
   (C9_case_insensitive_lookup [("Finance", (1:ℚ)/2)] "FINANCE").2.2.2.1 "finance"
      (by decide) (by decide) (by decide)⟩

/-- C5: in every assembled result, `win_probability_improvements` has
length `min(3, len(simulations))` and its `i`-th entry is derived from the
`i`-th (sorted) simulation: `rank = i+1`, `recommendation` is its
description, same `uplift_percent`, `confidence` defaulted to `"Medium"`
when the simulation has none, and `source_type` chosen by the `from_qual`
flag. -/
theorem C5_top3_invariant (stats : Stats) (qual : QualStats) (llm : Option ℚ)
    (attrs : ExtractedAttrs) (r : RelevantStats)
    (h : engine_get_relevant_stats stats qual llm attrs = .ok r) :
    r.win_probability_improvements.length = min 3 r.simulations.length ∧
    ∀ i (hi : i < r.win_probability_improvements.length),
      ∃ hs : i < r.simulations.length,
        r.win_probability_improvements[i] =
          { rank := i + 1,
            recommendation := r.simulations[i].description,
            uplift_percent := r.simulations[i].uplift_percent,
            confidence := r.simulations[i].confidence.getD "Medium",
            source_type := if r.simulations[i].from_qual then
              "Qualitative insight" else "Quantitative simulation" } := by
  obtain ⟨p, av, sm, ps, rg, cr, tr, s0, qi, hp, hav, hsm, hps, hrg, hcr, htr,
    hs0, hqi, hov, hprod, hav2, hsec, hps2, hrg2, hcr2, htr2, hwd, hlr, hqle,
    hsims, hwpi⟩ := engine_ok_inv h
  rw [hwpi]
  exact ⟨buildWPI_length _, fun i hi => buildWPI_getElem _ i hi⟩

/-- Witness for C5 on the concrete fixture. -/
theorem C5_top3_invariant_witness :
    engine_get_relevant_stats fixtureStats fixtureQual (some 12) attrsResolved =
      .ok resolvedResult ∧
    resolvedResult.win_probability_improvements.length =
      min 3 resolvedResult.simulations.length :=
  have hok : engine_get_relevant_stats fixtureStats fixtureQual (some 12)
      attrsResolved = .ok resolvedResult := by with_unfolding_all rfl
  ⟨hok, (C5_top3_invariant _ _ _ _ _ hok).1⟩

/-- C6: in every assembled result the simulations list is the stable
descending sort by `uplift_percent` of the *construction* list — the
quantitative simulations built by `baselineSims` from the assembled
dimension mappings, followed by the qualitative-lift step's appended
simulation — so it is sorted descending, is a permutation of that
construction list, and every `uplift_percent` tie-class keeps its prior
construction order; and each present qualitative bucket is pairwise
sorted by frequency descending. -/
theorem C6_deterministic_sort (stats : Stats) (qual : QualStats)
    (llm : Option ℚ) (attrs : ExtractedAttrs) (r : RelevantStats)
    (h : engine_get_relevant_stats stats qual llm attrs = .ok r) :
    (∃ sims0 qi,
      baselineSims stats.overall_win_rate
        (case_insensitive_lookup attrs.sector stats.account_sector.win_rate)
        r.sector r.products stats.avg_revenue_by_product r.top_reps =
        .ok sims0 ∧
      qualSelect qual attrs.sector = .ok qi ∧
      r.simulations = sortDescBy (fun s => s.uplift_percent)
        (sims0 ++ (qualLiftStep stats.overall_win_rate qi llm).2) ∧
      List.Perm r.simulations
        (sims0 ++ (qualLiftStep stats.overall_win_rate qi llm).2) ∧
      ∀ q : ℚ, r.simulations.filter (fun s => s.uplift_percent == q) =
        (sims0 ++ (qualLiftStep stats.overall_win_rate qi llm).2).filter
          (fun s => s.uplift_percent == q)) ∧
    List.Pairwise (fun a b => b.uplift_percent ≤ a.uplift_percent)
      r.simulations ∧
    (∀ l, r.qualitative_insights.win_drivers = some l →
      List.Pairwise (fun a b => b.2.frequency ≤ a.2.frequency) l) ∧
    (∀ l, r.qualitative_insights.loss_risks = some l →
      List.Pairwise (fun a b => b.2.frequency ≤ a.2.frequency) l) := by
  obtain ⟨p, av, sm, ps, rg, cr, tr, s0, qi, hp, hav, hsm, hps, hrg, hcr, htr,
    hs0, hqi, hov, hprod, hav2, hsec, hps2, hrg2, hcr2, htr2, hwd, hlr, hqle,
    hsims, hwpi⟩ := engine_ok_inv h
  refine ⟨⟨s0, qi, ?_, hqi, hsims, ?_, ?_⟩, ?_, ?_, ?_⟩
  · rw [hsec, hprod, htr2]
    exact hs0
  · rw [hsims]
    exact sortDescBy_perm _ _
  · intro q
    rw [hsims]
    exact sortDescBy_stable _ _ q
  · rw [hsims]
    exact sortDescBy_sorted _ _
  · intro l hl
    rw [hwd] at hl
    obtain ⟨l0, h0, hsort⟩ := Option.map_eq_some'.mp hl
    subst hsort
    exact sortDescBy_sorted _ _
  · intro l hl
    rw [hlr] at hl
    obtain ⟨l0, h0, hsort⟩ := Option.map_eq_some'.mp hl
    subst hsort
    exact sortDescBy_sorted _ _

/-- Witness for C6 on the concrete fixture. -/
theorem C6_deterministic_sort_witness :
    engine_get_relevant_stats fixtureStats fixtureQual (some 12) attrsResolved =
      .ok resolvedResult ∧
    List.Pairwise (fun a b => b.uplift_percent ≤ a.uplift_percent)
      resolvedResult.simulations :=
  have hok : engine_get_relevant_stats fixtureStats fixtureQual (some 12)
      attrsResolved = .ok resolvedResult := by with_unfolding_all rfl
  ⟨hok, (C6_deterministic_sort _ _ _ _ _ hok).2.1⟩

/-- C7: no qualitative category with `frequency ≤ 0.1` ever appears in
the assembled `qualitative_insights`, in both the sector-segmented branch
and the overall fallback branch. -/
theorem C7_frequency_threshold (stats : Stats) (qual : QualStats)
    (llm : Option ℚ) (attrs : ExtractedAttrs) (r : RelevantStats)
    (h : engine_get_relevant_stats stats qual llm attrs = .ok r) :
    (∀ l, r.qualitative_insights.win_drivers = some l →
      ∀ kv ∈ l, (1:ℚ)/10 < kv.2.frequency) ∧
    (∀ l, r.qualitative_insights.loss_risks = some l →
      ∀ kv ∈ l, (1:ℚ)/10 < kv.2.frequency) := by
  obtain ⟨p, av, sm, ps, rg, cr, tr, s0, qi, hp, hav, hsm, hps, hrg, hcr, htr,
    hs0, hqi, hov, hprod, hav2, hsec, hps2, hrg2, hcr2, htr2, hwd, hlr, hqle,
    hsims, hwpi⟩ := engine_ok_inv h
  have hq := qualSelect_threshold hqi
  constructor
  · intro l hl kv hkv
    rw [hwd] at hl
    obtain ⟨l0, h0, hsort⟩ := Option.map_eq_some'.mp hl
    subst hsort
    exact hq.1 l0 h0 kv (mem_sortDescBy.mp hkv)
  · intro l hl kv hkv
    rw [hlr] at hl
    obtain ⟨l0, h0, hsort⟩ := Option.map_eq_some'.mp hl
    subst hsort
    exact hq.2 l0 h0 kv (mem_sortDescBy.mp hkv)

/-- Witness for C7 on the concrete fixture (the segmented branch; the
fixture's segment holds a boundary category at exactly `0.1`, which is
filtered out). -/
theorem C7_frequency_threshold_witness :
    engine_get_relevant_stats fixtureStats fixtureQual (some 12) attrsResolved =
      .ok resolvedResult ∧
    (∀ l, resolvedResult.qualitative_insights.loss_risks = some l →
      ∀ kv ∈ l, (1:ℚ)/10 < kv.2.frequency) :=
  have hok : engine_get_relevant_stats fixtureStats fixtureQual (some 12)
      attrsResolved = .ok resolvedResult := by with_unfolding_all rfl
  ⟨hok, (C7_frequency_threshold _ _ _ _ _ hok).2⟩

theorem ok_bind {α β : Type} (a : α) (f : α → Except String β) :
    ((Except.ok a : Except String α) >>= f) = f a := rfl

theorem pure_bind_ex {α β : Type} (a : α) (f : α → Except String β) :
    ((pure a : Except String α) >>= f) = f a := rfl

/-- Success and shape of the alternatives-building fold shared by the
engine's unresolved branch and app.py's resolved branch: with pairwise
fresh keys all present in `W` and `L`, the fold extends `init` by one
entry per alternative, in order. -/
theorem build_from_alts {W L : List (String × ℚ)} :
    ∀ (alts : List (String × ℚ)) (init : List (String × WinLift)),
    (∀ kv ∈ alts, kv.1 ∈ W.map Prod.fst) →
    (∀ kv ∈ alts, kv.1 ∈ L.map Prod.fst) →
    ((init.map Prod.fst ++ alts.map Prod.fst).Nodup) →
    ∃ m, (alts.foldlM (fun acc kv => do
        let wr ← dgetE W kv.1
        let lf ← dgetE L kv.1
        pure (dinsert acc kv.1 ⟨wr, lf⟩)) init) = .ok m ∧
      m.map Prod.fst = init.map Prod.fst ++ alts.map Prod.fst := by
  intro alts
  induction alts with
  | nil =>
    intro init hW hL hnd
    exact ⟨init, rfl, by simp⟩
  | cons x xs ih =>
    intro init hW hL hnd
    obtain ⟨w, hw⟩ := Option.isSome_iff_exists.mp
      (dget_isSome_of_mem (hW x (List.mem_cons_self x xs)))
    obtain ⟨lv, hlv⟩ := Option.isSome_iff_exists.mp
      (dget_isSome_of_mem (hL x (List.mem_cons_self x xs)))
    have hx_not_init : x.1 ∉ init.map Prod.fst := by
      intro hmem
      have hdisj := (List.nodup_append.mp hnd).2.2
      exact hdisj hmem (by simp)
    have hnd2 : ((init ++ [(x.1, WinLift.mk w lv)]).map Prod.fst ++
        xs.map Prod.fst).Nodup := by
      have hmapeq : (init ++ [(x.1, WinLift.mk w lv)]).map Prod.fst =
          init.map Prod.fst ++ [x.1] := by simp
      have hnd' := hnd
      rw [List.map_cons, List.append_cons] at hnd'
      rw [hmapeq]
      exact hnd'
    obtain ⟨m, hm, hmfst⟩ := ih (init ++ [(x.1, ⟨w, lv⟩)])
      (fun kv hkv => hW kv (List.mem_cons_of_mem x hkv))
      (fun kv hkv => hL kv (List.mem_cons_of_mem x hkv)) hnd2
    refine ⟨m, ?_, ?_⟩
    · rw [List.foldlM_cons]
      rw [dgetE_ok.mpr hw, ok_bind, dgetE_ok.mpr hlv, ok_bind, pure_bind_ex,
        dinsert_eq_append hx_not_init]
      exact hm
    · rw [hmfst]
      rw [List.map_append, List.append_assoc]
      rfl

/-- The engine's unresolved-dimension branch (product lines 564-576,
sector lines 599-611) succeeds on consistent tables and returns exactly
the top-3-by-lift alternatives. -/
theorem engine_dimension_block_none {t : DimTable}
    (hsub : ∀ k ∈ t.lift.map Prod.fst, k ∈ t.win_rate.map Prod.fst)
    (hnd : (t.lift.map Prod.fst).Nodup) :
    ∃ m, engine_dimension_block t none = .ok m ∧
      m.map Prod.fst =
        ((sortDescBy (fun p => p.2) t.lift).take 3).map Prod.fst := by
  have htake : ∀ kv ∈ (sortDescBy (fun p : String × ℚ => p.2) t.lift).take 3,
      kv ∈ t.lift :=
    fun kv hkv => mem_sortDescBy.mp (List.take_subset 3 _ hkv)
  have hndt : (((sortDescBy (fun p : String × ℚ => p.2) t.lift).take 3).map
      Prod.fst).Nodup := by
    have hperm : List.Perm (sortDescBy (fun p : String × ℚ => p.2) t.lift)
        t.lift := sortDescBy_perm _ _
    have hnd2 : ((sortDescBy (fun p : String × ℚ => p.2) t.lift).map
        Prod.fst).Nodup := ((hperm.map Prod.fst).nodup_iff).mpr hnd
    rw [List.map_take]
    exact hnd2.sublist (List.take_sublist 3 _)
  obtain ⟨m, hm, hmfst⟩ := build_from_alts
    ((sortDescBy (fun p : String × ℚ => p.2) t.lift).take 3) []
    (fun kv hkv => hsub kv.1 (List.mem_map_of_mem Prod.fst (htake kv hkv)))
    (fun kv hkv => List.mem_map_of_mem Prod.fst (htake kv hkv))
    (by simpa using hndt)
  exact ⟨m, hm, by simpa using hmfst⟩

theorem foldlM_avg_ok_of_mem {rev : List (String × ℚ)} :
    ∀ (l : List (String × WinLift)) (init : List (String × ℚ)),
    (∀ kv ∈ l, kv.1 ∈ rev.map Prod.fst) →
    ∃ m, (l.foldlM (fun acc kv => do
        let v ← dgetE rev kv.1
        pure (dinsert acc kv.1 v)) init) = .ok m := by
  intro l
  induction l with
  | nil => intro init hmem; exact ⟨init, rfl⟩
  | cons x xs ih =>
    intro init hmem
    obtain ⟨v, hv⟩ := Option.isSome_iff_exists.mp
      (dget_isSome_of_mem (hmem x (List.mem_cons_self x xs)))
    obtain ⟨m, hm⟩ := ih (dinsert init x.1 v)
      (fun kv hkv => hmem kv (List.mem_cons_of_mem x hkv))
    refine ⟨m, ?_⟩
    rw [List.foldlM_cons, dgetE_ok.mpr hv, ok_bind]
    exact hm

theorem avgRevenueBlock_ok {rev : List (String × ℚ)}
    {products : List (String × WinLift)}
    (hsub : ∀ kv ∈ products, kv.1 ∈ rev.map Prod.fst) :
    ∃ av, avgRevenueBlock rev products = .ok av := by
  unfold avgRevenueBlock
  by_cases hp : products.isEmpty
  · rw [if_pos hp]
    exact ⟨none, rfl⟩
  · rw [if_neg hp]
    obtain ⟨m, hm⟩ := foldlM_avg_ok_of_mem products [] hsub
    exact ⟨some m, by rw [hm, ok_bind]; rfl⟩

theorem mapM_reps_ok {W : List (String × ℚ)} {S : List (String × ℕ)} :
    ∀ (l : List (String × ℚ)),
    (∀ kv ∈ l, kv.1 ∈ W.map Prod.fst) →
    (∀ kv ∈ l, kv.1 ∈ S.map Prod.fst) →
    ∃ es, (l.mapM (fun kv => do
        let wr ← dgetE W kv.1
        let ss ← dgetE S kv.1
        pure (RepInfo.mk kv.1 wr kv.2 ss))) = .ok es ∧
      es.map (fun rp => (rp.name, rp.lift)) = l ∧
      ∀ rp ∈ es, dget W rp.name = some rp.win_rate ∧
        dget S rp.name = some rp.sample_size := by
  intro l
  induction l with
  | nil => intro _ _; exact ⟨[], rfl, rfl, by simp⟩
  | cons x xs ih =>
    intro hW hS
    obtain ⟨k, v⟩ := x
    obtain ⟨w, hw⟩ := Option.isSome_iff_exists.mp
      (dget_isSome_of_mem (hW (k, v) (List.mem_cons_self (k, v) xs)))
    obtain ⟨s, hs⟩ := Option.isSome_iff_exists.mp
      (dget_isSome_of_mem (hS (k, v) (List.mem_cons_self (k, v) xs)))
    obtain ⟨es, hes, hmap, hprops⟩ :=
      ih (fun kv hkv => hW kv (List.mem_cons_of_mem (k, v) hkv))
        (fun kv hkv => hS kv (List.mem_cons_of_mem (k, v) hkv))
    refine ⟨RepInfo.mk k w v s :: es, ?_, ?_, ?_⟩
    · simp only [List.mapM_cons]
      rw [dgetE_ok.mpr hw, ok_bind, dgetE_ok.mpr hs, ok_bind, pure_bind_ex,
        hes, ok_bind]
      rfl
    · rw [List.map_cons, hmap]
    · intro rp hrp
      rcases List.mem_cons.mp hrp with rfl | hrp2
      · exact ⟨hw, hs⟩
      · exact hprops rp hrp2

/-- Success and content of the unconditional top-reps block: the
comprehension yields one record per lift-table row (same name and lift,
`win_rate`/`sample_size` read from their tables), and the block returns
the lift-descending sort truncated to 5 — a value of the statistics
tables alone. -/
theorem topRepsBlock_ok {t : RepTable}
    (hW : ∀ k ∈ t.lift.map Prod.fst, k ∈ t.win_rate.map Prod.fst)
    (hS : ∀ k ∈ t.lift.map Prod.fst, k ∈ t.sample_size.map Prod.fst) :
    ∃ entries, entries.map (fun rp => (rp.name, rp.lift)) = t.lift ∧
      (∀ rp ∈ entries, dget t.win_rate rp.name = some rp.win_rate ∧
        dget t.sample_size rp.name = some rp.sample_size) ∧
      topRepsBlock t =
        .ok ((sortDescBy (fun rp => rp.lift) entries).take 5) := by
  unfold topRepsBlock
  obtain ⟨es, hes, hmap, hprops⟩ := mapM_reps_ok t.lift
    (fun kv hkv => hW kv.1 (List.mem_map_of_mem Prod.fst hkv))
    (fun kv hkv => hS kv.1 (List.mem_map_of_mem Prod.fst hkv))
  refine ⟨es, hmap, hprops, ?_⟩
  rw [hes, ok_bind]
  rfl

theorem lookup_mem_opt {α : Type} {d : List (String × α)}
    {sector : Option String} {k : String}
    (h : case_insensitive_lookup sector d = some k) : k ∈ d.map Prod.fst := by
  cases sector with
  | none => simp [case_insensitive_lookup] at h
  | some s => exact (lookup_mem h).1

theorem qualSelect_ok (qual : QualStats) (sector : Option String) :
    ∃ qi, qualSelect qual sector = .ok qi := by
  unfold qualSelect
  cases hlk : case_insensitive_lookup sector qual.segmented with
  | none => exact ⟨_, rfl⟩
  | some qsk =>
    obtain ⟨seg, hseg⟩ := Option.isSome_iff_exists.mp
      (dget_isSome_of_mem (lookup_mem_opt hlk))
    refine ⟨⟨seg.win_drivers.map
      (fun l => l.filter (fun kv => decide ((1:ℚ)/10 < kv.2.frequency))),
      seg.loss_risks.map
      (fun l => l.filter (fun kv => decide ((1:ℚ)/10 < kv.2.frequency)))⟩, ?_⟩
    dsimp only
    rw [dgetE_ok.mpr hseg, ok_bind]
    rfl

/-- C3, counterexample: the claim says a resolved product yields the
matched record *plus up to 3 other keys ranked by lift*.  In the engine
variant (`_get_relevant_stats` lines 554-563) the resolved branch builds
the singleton matched mapping only: on a 4-product table the assembled
products mapping has exactly one entry and no alternatives. -/
theorem C3_matched_alternatives_counterexample :
    engine_get_relevant_stats fixtureStats fixtureQual (some 12)
      attrsResolved = .ok resolvedResult ∧
    resolvedResult.products.length = 1 ∧
    fixtureStats.product.lift.length = 4 := by
  refine ⟨?_, ?_, ?_⟩ <;> with_unfolding_all rfl

/-- C3, amended: the two variants diverge.  In the engine variant a
resolved product key yields the singleton matched mapping (no
alternatives).  In the app.py variant (`get_relevant_stats` lines
283-301, and likewise its sector block lines 313-330) a resolved key
yields the matched record first, followed by up to 3 *other* keys of the
lift table — filtered by `k.lower() != key.lower()` — ranked by lift
descending. -/
theorem C3_matched_alternatives_amended (stats : Stats) (qual : QualStats)
    (llm : Option ℚ) (attrs : ExtractedAttrs) (r : RelevantStats) (pk : String)
    (h : engine_get_relevant_stats stats qual llm attrs = .ok r)
    (hpk : case_insensitive_lookup attrs.product stats.product.win_rate =
      some pk) :
    (∃ wr lf, dget stats.product.win_rate pk = some wr ∧
      dget stats.product.lift pk = some lf ∧
      r.products = [(pk, ⟨wr, lf⟩)]) ∧
    (∀ (t : DimTable) (attr : Option String) (k : String),
      case_insensitive_lookup attr t.win_rate = some k →
      (∀ k2 ∈ t.lift.map Prod.fst, k2 ∈ t.win_rate.map Prod.fst) →
      (∀ k2 ∈ t.win_rate.map Prod.fst, k2 ∈ t.lift.map Prod.fst) →
      (t.lift.map Prod.fst).Nodup →
      ∃ m, app_dimension_block t attr = .ok (some m) ∧
        m.map Prod.fst = k :: ((sortDescBy (fun p => p.2)
          (t.lift.filter (fun p => pyLower p.1 != pyLower k))).take 3).map
            Prod.fst) := by
  constructor
  · obtain ⟨p2, av2, sm2, ps2, rg2, cr2, tr2, s02, qi2, hp2, hav2, hsm2, hps2,
      hrg2, hcr2, htr2b, hs02, hqi2, hov2, hprod2, hav22, hsec2, hps22, hrg22,
      hcr22, htr22, hwd2, hlr2, hqle2, hsims2, hwpi2⟩ := engine_ok_inv h
    rw [hpk] at hp2
    simp only [engine_dimension_block, except_bind_ok, except_pure_ok] at hp2
    obtain ⟨wr, hwr, lf, hlf, heq⟩ := hp2
    exact ⟨wr, lf, dgetE_ok.mp hwr, dgetE_ok.mp hlf, by rw [hprod2, ← heq]⟩
  · intro t attr k hk hLW hWL hnd
    obtain ⟨wr, hwr⟩ := Option.isSome_iff_exists.mp
      (dget_isSome_of_mem (lookup_mem_opt hk))
    obtain ⟨lf, hlf⟩ := Option.isSome_iff_exists.mp
      (dget_isSome_of_mem (hWL k (lookup_mem_opt hk)))
    have hfil : ∀ kv ∈ t.lift.filter
        (fun p => pyLower p.1 != pyLower k), kv ∈ t.lift :=
      fun kv hkv => (List.mem_filter.mp hkv).1
    have htake : ∀ kv ∈ (sortDescBy (fun p : String × ℚ => p.2)
        (t.lift.filter (fun p => pyLower p.1 != pyLower k))).take 3,
        kv ∈ t.lift.filter (fun p => pyLower p.1 != pyLower k) :=
      fun kv hkv => mem_sortDescBy.mp (List.take_subset 3 _ hkv)
    have hndf : ((t.lift.filter (fun p => pyLower p.1 != pyLower k)).map
        Prod.fst).Nodup := by
      have hsub : List.Sublist ((t.lift.filter
          (fun p => pyLower p.1 != pyLower k)).map Prod.fst)
          (t.lift.map Prod.fst) := (List.filter_sublist _).map Prod.fst
      exact hnd.sublist hsub
    have hnda : (((sortDescBy (fun p : String × ℚ => p.2)
        (t.lift.filter (fun p => pyLower p.1 != pyLower k))).take 3).map
        Prod.fst).Nodup := by
      have hperm : List.Perm (sortDescBy (fun p : String × ℚ => p.2)
          (t.lift.filter (fun p => pyLower p.1 != pyLower k)))
          (t.lift.filter (fun p => pyLower p.1 != pyLower k)) :=
        sortDescBy_perm _ _
      have hnd2 := ((hperm.map Prod.fst).nodup_iff).mpr hndf
      rw [List.map_take]
      exact hnd2.sublist (List.take_sublist 3 _)
    have hknotin : k ∉ ((sortDescBy (fun p : String × ℚ => p.2)
        (t.lift.filter (fun p => pyLower p.1 != pyLower k))).take 3).map
        Prod.fst := by
      intro hmemk
      rcases List.mem_map.mp hmemk with ⟨kv, hkv, hfst⟩
      have hbne := (List.mem_filter.mp (htake kv hkv)).2
      rw [hfst] at hbne
      simp at hbne
    obtain ⟨m, hmfold, hmfst⟩ := build_from_alts
      ((sortDescBy (fun p : String × ℚ => p.2)
        (t.lift.filter (fun p => pyLower p.1 != pyLower k))).take 3)
      [(k, ⟨wr, lf⟩)]
      (fun kv hkv => hLW kv.1
        (List.mem_map_of_mem Prod.fst (hfil kv (htake kv hkv))))
      (fun kv hkv =>
        List.mem_map_of_mem Prod.fst (hfil kv (htake kv hkv)))
      (by
        simp only [List.map_cons, List.map_nil, List.singleton_append,
          List.nodup_cons]
        exact ⟨hknotin, hnda⟩)
    refine ⟨m, ?_, ?_⟩
    · unfold app_dimension_block
      rw [hk]
      dsimp only
      rw [dgetE_ok.mpr hwr, ok_bind, dgetE_ok.mpr hlf, ok_bind, hmfold,
        ok_bind]
      rfl
    · rw [hmfst]
      rfl

/-- Witness for C3's amended theorem on the concrete fixture: the engine
part at the resolved product `alpha`. -/
theorem C3_matched_alternatives_amended_witness :
    ∃ wr lf, dget fixtureStats.product.win_rate "Alpha" = some wr ∧
      dget fixtureStats.product.lift "Alpha" = some lf ∧
      resolvedResult.products = [("Alpha", ⟨wr, lf⟩)] :=
  have hok : engine_get_relevant_stats fixtureStats fixtureQual (some 12)
      attrsResolved = .ok resolvedResult := by with_unfolding_all rfl
  have hpk : case_insensitive_lookup attrsResolved.product
      fixtureStats.product.win_rate = some "Alpha" := by
    with_unfolding_all rfl
  (C3_matched_alternatives_amended fixtureStats fixtureQual (some 12)
    attrsResolved resolvedResult "Alpha" hok hpk).1

/-- C4, counterexample: the claim asserts that for a combination table
containing `"MG_Special_Finance"`, the candidate scan for sector key
`"Finance"` includes product `"MG_Special"`.  On the code (`k.split("_", 1)`,
engine line 626 / app.py line 343) the key parses as product `"MG"` with
sector part `"Special_Finance"`, which does not match `"Finance"`, so the
scan yields no candidate at all. -/
theorem C4_combination_split_counterexample :
    secCombos [("MG_Special_Finance", (1:ℚ)/2)] "Finance" = [] ∧
    ("MG_Special", (1:ℚ)/2) ∉ secCombos [("MG_Special_Finance", (1:ℚ)/2)] "Finance" := by
  constructor
  · rfl
  · intro h
    simp [secCombos, pySplitFirst, splitFirstAux, pyLower] at h

/-- C4, amended: the composite key is split on the *first* underscore
only, so any table key `a ++ "_" ++ b` with underscore-free `a` is a
candidate `(a, value)` exactly for sector keys whose lowercase form is
that of `b`; in particular `"MG_Special_Finance"` contributes candidate
product `"MG"` for sector `"Special_Finance"` and no candidate for sector
`"Finance"`. -/
theorem C4_combination_split_amended (a b s : String) (v : ℚ)
    (table : List (String × ℚ)) (ha : '_' ∉ a.data)
    (hmemT : (a ++ "_" ++ b, v) ∈ table) (hlow : pyLower b = pyLower s) :
    (a, v) ∈ secCombos table s ∧
    secCombos [("MG_Special_Finance", (1:ℚ)/2)] "Special_Finance" = [("MG", (1:ℚ)/2)] ∧
    secCombos [("MG_Special_Finance", (1:ℚ)/2)] "Finance" = [] :=
  ⟨mem_secCombos.mpr ⟨a ++ "_" ++ b, b, hmemT, pySplitFirst_append ha, hlow⟩,
   rfl, rfl⟩

/-- Witness for C4's amended theorem on the concrete table of the claim. -/
theorem C4_combination_split_amended_witness :
    ("MG", (1:ℚ)/2) ∈ secCombos [("MG_Special_Finance", (1:ℚ)/2)] "Special_Finance" :=
  (C4_combination_split_amended "MG" "Special_Finance" "Special_Finance"
    ((1:ℚ)/2) [("MG_Special_Finance", (1:ℚ)/2)]
    (by decide) (List.mem_singleton.mpr rfl) rfl).1

theorem filter_length_sort_append_qual (s0 : List Simulation) (x : Simulation)
    (h0 : ∀ s ∈ s0, s.from_qual = false) (hx : x.from_qual = true) :
    ((sortDescBy (fun s => s.uplift_percent) (s0 ++ [x])).filter
      (fun s => s.from_qual)).length = 1 := by
  have hperm := List.Perm.filter (fun s => s.from_qual)
    (sortDescBy_perm (fun s : Simulation => s.uplift_percent) (s0 ++ [x]))
  rw [hperm.length_eq, List.filter_append]
  have hnil : s0.filter (fun s => s.from_qual) = [] :=
    List.filter_eq_nil.mpr (fun a ha => by simp [h0 a ha])
  rw [hnil]
  simp [hx]

theorem mem_sort_append_qual {s0 : List Simulation} {x s : Simulation}
    (h : s ∈ sortDescBy (fun s => s.uplift_percent) (s0 ++ [x]))
    (h0 : ∀ t ∈ s0, t.from_qual = false) (hq : s.from_qual = true) : s = x := by
  have hm := mem_sortDescBy.mp h
  rcases List.mem_append.mp hm with hm2 | hm2
  · rw [h0 s hm2] at hq
    exact absurd hq (by simp)
  · exact List.mem_singleton.mp hm2

theorem foldlM_avg_ok {rev : List (String × ℚ)} :
    ∀ (l : List (String × WinLift)) (init m : List (String × ℚ)),
    l.foldlM (fun acc kv => do
      let v ← dgetE rev kv.1
      pure (dinsert acc kv.1 v)) init = .ok m →
    ∀ kv ∈ l, ∃ v, dget rev kv.1 = some v := by
  intro l
  induction l with
  | nil =>
    intro init m h kv hkv
    simp at hkv
  | cons x xs ih =>
    intro init m h kv hkv
    rw [List.foldlM_cons] at h
    rw [except_bind_ok] at h
    obtain ⟨acc1, hacc1, hrest⟩ := h
    rw [except_bind_ok] at hacc1
    obtain ⟨v, hv, hpure⟩ := hacc1
    rcases List.mem_cons.mp hkv with rfl | hkv2
    · exact ⟨v, dgetE_ok.mp hv⟩
    · exact ih _ _ hrest kv hkv2

theorem avgRevenueBlock_mem {rev : List (String × ℚ)}
    {products : List (String × WinLift)} {av : Option (List (String × ℚ))}
    (h : avgRevenueBlock rev products = .ok av) :
    ∀ k ∈ products.map Prod.fst, k ∈ rev.map Prod.fst := by
  unfold avgRevenueBlock at h
  by_cases hp : products.isEmpty
  · rw [if_pos hp] at h
    rw [List.isEmpty_iff] at hp
    subst hp
    simp
  · rw [if_neg hp] at h
    rw [except_bind_ok] at h
    obtain ⟨m, hm, hpure⟩ := h
    intro k hk
    rcases List.mem_map.mp hk with ⟨kv, hkv, rfl⟩
    obtain ⟨v, hv⟩ := foldlM_avg_ok products [] m hm kv hkv
    exact List.mem_map_of_mem Prod.fst (dget_mem hv)

theorem baselineSims_product_mem {baseline : ℚ} {sector_key : Option String}
    {sectorMap : List (String × WinLift)} {products : List (String × WinLift)}
    {rev : List (String × ℚ)} {top_reps : List RepInfo}
    {s0 : List Simulation}
    (h : baselineSims baseline sector_key sectorMap products rev top_reps =
      .ok s0) :
    ∀ p wl, (p, wl) ∈ products →
      Simulation.mk ("Switch to " ++ p) (baseline * wl.lift)
        ((wl.lift - 1) * 100) (some (dgetD rev p 0)) none false ∈ s0 := by
  unfold baselineSims at h
  rcases sector_key with _ | sk
  · simp only [except_bind_ok, except_pure_ok] at h
    obtain ⟨s1, hs1, hs0⟩ := h
    subst hs1
    subst hs0
    intro p wl hmem
    refine List.mem_append.mpr (Or.inl (List.mem_append.mpr (Or.inr ?_)))
    exact List.mem_map.mpr ⟨(p, wl), hmem, rfl⟩
  · simp only [except_bind_ok, except_pure_ok] at h
    obtain ⟨wl0, hwl0, s1, hs1, hs0⟩ := h
    subst hs1
    subst hs0
    intro p wl hmem
    refine List.mem_append.mpr (Or.inl (List.mem_append.mpr (Or.inr ?_)))
    exact List.mem_map.mpr ⟨(p, wl), hmem, rfl⟩

/-- C8: whenever the uplift-estimation LLM response does not parse as
a float (modelled `llm = none`), stats assembly does not propagate the
error: it records `qual_lift_estimate = (1 - top_risk_frequency) * 10`
(the top risk frequency being the head of the frequency-sorted loss-risks
bucket), appends no `from_qual` simulation, and completes normally;
whenever it parses (`llm = some q`), it records `q` and appends exactly
one simulation with `from_qual = true`, `uplift_percent = q`, and
`estimated_win_rate = baseline * (1 + q/100)`. -/
theorem C8_uplift_parse_handling (stats : Stats) (qual : QualStats)
    (attrs : ExtractedAttrs) (q : ℚ) (rf rs : RelevantStats)
    (hf : engine_get_relevant_stats stats qual none attrs = .ok rf)
    (hs : engine_get_relevant_stats stats qual (some q) attrs = .ok rs)
    (hne : ∃ l, rf.qualitative_insights.loss_risks = some l ∧ l ≠ []) :
    ((∃ hd tl, rf.qualitative_insights.loss_risks = some (hd :: tl) ∧
        rf.qual_lift_estimate = some ((1 - hd.2.frequency) * 10)) ∧
      ∀ s ∈ rf.simulations, s.from_qual = false) ∧
    (rs.qual_lift_estimate = some q ∧
      (rs.simulations.filter (fun s => s.from_qual)).length = 1 ∧
      ∀ s ∈ rs.simulations, s.from_qual = true →
        s.uplift_percent = q ∧
        s.estimated_win_rate = stats.overall_win_rate * (1 + q / 100)) := by
  obtain ⟨pf, avf, smf, psf, rgf, crf, trf, s0f, qif, hpf, havf, hsmf, hpsf,
    hrgf, hcrf, htrf, hs0f, hqif, hovf, hprodf, hav2f, hsecf, hps2f, hrg2f,
    hcr2f, htr2f, hwdf, hlrf, hqlef, hsimsf, hwpif⟩ := engine_ok_inv hf
  obtain ⟨pp, avs, sms, pss, rgs, crs, trs, s0s, qis, hps2, havs, hsms, hpss,
    hrgs, hcrs, htrs, hs0s, hqis, hovs, hprods, hav2s, hsecs, hps2s, hrg2s,
    hcr2s, htr2s, hwds, hlrs, hqles, hsimss, hwpis⟩ := engine_ok_inv hs
  rw [hqif] at hqis
  injection hqis with hqq
  subst hqq
  obtain ⟨l, hl, hlne⟩ := hne
  have hlr_orig := hl
  rw [hlrf] at hl
  obtain ⟨l0, h0, hsort⟩ := Option.map_eq_some'.mp hl
  have hl0ne : l0 ≠ [] := by
    intro hnil
    rw [hnil] at hsort
    exact hlne hsort.symm
  obtain ⟨hd0, tl0, rfl⟩ := List.exists_cons_of_ne_nil hl0ne
  obtain ⟨hd, tl, rfl⟩ := List.exists_cons_of_ne_nil hlne
  have hmax := maxByFreq_freq_eq_sorted_head hd0 hd tl0 tl hsort
  have hstep_f : qualLiftStep stats.overall_win_rate qif none =
      (some ((1 - (maxByFreq hd0 tl0).2.frequency) * 10), []) := by
    unfold qualLiftStep
    rw [h0]
  have hstep_s : qualLiftStep stats.overall_win_rate qif (some q) =
      (some q,
       [{ description := "Address top qual risk '" ++ (maxByFreq hd0 tl0).1 ++ "'",
          estimated_win_rate := stats.overall_win_rate * (1 + q / 100),
          uplift_percent := q, from_qual := true }]) := by
    unfold qualLiftStep
    rw [h0]
  refine ⟨⟨⟨hd, tl, hlr_orig, ?_⟩, ?_⟩, ?_, ?_, ?_⟩
  · rw [hqlef, hstep_f, hmax]
  · intro s hsmem
    rw [hsimsf, hstep_f] at hsmem
    have hmem2 := mem_sortDescBy.mp hsmem
    rw [List.append_nil] at hmem2
    exact baselineSims_from_qual hs0f s hmem2
  · rw [hqles, hstep_s]
  · rw [hsimss, hstep_s]
    exact filter_length_sort_append_qual s0s _
      (baselineSims_from_qual hs0s) rfl
  · intro s hsmem hq
    rw [hsimss, hstep_s] at hsmem
    have hx := mem_sort_append_qual hsmem (baselineSims_from_qual hs0s) hq
    subst hx
    exact ⟨rfl, rfl⟩

theorem ok_inj {α : Type} {a b : α}
    (h : (Except.ok a : Except String α) = .ok b) : a = b := by
  injection h

/-- C2, counterexample: the claim says all four dimensions (product,
sector, region, rep) degrade to `matched = None` plus a non-empty
alternatives collection.  On the code, an unresolvable region leaves the
result with *no* region entry at all (no alternatives; engine lines
641-651 have no else branch), and an unresolvable rep leaves no
`current_rep` entry, while `top_reps` is a top-*5* list independent of
the rep attribute. -/
theorem C2_graceful_degradation_counterexample :
    engine_get_relevant_stats fixtureStats fixtureQual none attrsUnknown =
      .ok unknownResult ∧
    unknownResult.region = none ∧
    unknownResult.current_rep = none := by
  refine ⟨?_, ?_, ?_⟩ <;> with_unfolding_all rfl

/-- C2, amended: with attributes that resolve in no table and
consistent statistics tables, stats assembly does not raise; the products
and sector mappings degrade to the global top-3-by-lift alternatives
(non-empty, at most 3, no matched entry since the key resolves to
nothing); the region and current-rep dimensions contribute *no* entry at
all; and `top_reps` carries the global top reps: the lift-descending sort
of the rep table's records (one per lift-table row, with `win_rate` and
`sample_size` read from their tables) truncated to 5 — an expression in
the statistics tables alone. -/
theorem C2_graceful_degradation_amended (stats : Stats) (qual : QualStats)
    (llm : Option ℚ) (attrs : ExtractedAttrs)
    (hpk : case_insensitive_lookup attrs.product stats.product.win_rate = none)
    (hsk : case_insensitive_lookup attrs.sector
      stats.account_sector.win_rate = none)
    (hrk : case_insensitive_lookup attrs.region
      stats.account_region.win_rate = none)
    (hck : case_insensitive_lookup attrs.current_rep
      stats.sales_rep.win_rate = none)
    (hPW : ∀ k ∈ stats.product.lift.map Prod.fst,
      k ∈ stats.product.win_rate.map Prod.fst)
    (hPR : ∀ k ∈ stats.product.lift.map Prod.fst,
      k ∈ stats.avg_revenue_by_product.map Prod.fst)
    (hPnd : (stats.product.lift.map Prod.fst).Nodup)
    (hSW : ∀ k ∈ stats.account_sector.lift.map Prod.fst,
      k ∈ stats.account_sector.win_rate.map Prod.fst)
    (hSnd : (stats.account_sector.lift.map Prod.fst).Nodup)
    (hRW : ∀ k ∈ stats.sales_rep.lift.map Prod.fst,
      k ∈ stats.sales_rep.win_rate.map Prod.fst)
    (hRS : ∀ k ∈ stats.sales_rep.lift.map Prod.fst,
      k ∈ stats.sales_rep.sample_size.map Prod.fst)
    (hPne : stats.product.lift ≠ [])
    (hSne : stats.account_sector.lift ≠ []) :
    ∃ r, engine_get_relevant_stats stats qual llm attrs = .ok r ∧
      r.products.map Prod.fst =
        ((sortDescBy (fun p => p.2) stats.product.lift).take 3).map Prod.fst ∧
      r.products ≠ [] ∧ r.products.length ≤ 3 ∧
      r.sector.map Prod.fst =
        ((sortDescBy (fun p => p.2) stats.account_sector.lift).take 3).map
          Prod.fst ∧
      r.sector ≠ [] ∧ r.sector.length ≤ 3 ∧
      r.region = none ∧ r.current_rep = none ∧
      (∃ entries, entries.map (fun rp => (rp.name, rp.lift)) =
          stats.sales_rep.lift ∧
        (∀ rp ∈ entries, dget stats.sales_rep.win_rate rp.name =
            some rp.win_rate ∧
          dget stats.sales_rep.sample_size rp.name = some rp.sample_size) ∧
        r.top_reps = (sortDescBy (fun rp => rp.lift) entries).take 5 ∧
        r.top_reps.length ≤ 5) := by
  obtain ⟨mp, hmp, hmpf⟩ := engine_dimension_block_none hPW hPnd
  have hmpsub : ∀ kv ∈ mp, kv.1 ∈ stats.product.lift.map Prod.fst := by
    intro kv hkv
    have h1 : kv.1 ∈ mp.map Prod.fst := List.mem_map_of_mem Prod.fst hkv
    rw [hmpf, List.map_take] at h1
    have h2 := List.take_subset 3 _ h1
    exact ((sortDescBy_perm (fun p : String × ℚ => p.2)
      stats.product.lift).map Prod.fst).mem_iff.mp h2
  obtain ⟨av, hav⟩ := avgRevenueBlock_ok
    (fun kv hkv => hPR kv.1 (hmpsub kv hkv))
  obtain ⟨ms, hms, hmsf⟩ := engine_dimension_block_none hSW hSnd
  obtain ⟨entries, hentmap, hentprops, htr⟩ := topRepsBlock_ok hRW hRS
  obtain ⟨qi, hqi⟩ := qualSelect_ok qual attrs.sector
  have hexists : ∃ r, engine_get_relevant_stats stats qual llm attrs =
      .ok r := by
    simp only [engine_get_relevant_stats]
    rw [hpk, hsk, hrk, hck]
    rw [hmp, ok_bind, hav, ok_bind, hms, ok_bind]
    obtain ⟨ps0, hps0⟩ : ∃ x, productSectorStep
        stats.product_sector_win_rates none none = .ok x := ⟨none, rfl⟩
    rw [hps0, ok_bind]
    obtain ⟨rg0, hrg0⟩ : ∃ x, regionBlock stats.account_region none =
        .ok x := ⟨none, rfl⟩
    rw [hrg0, ok_bind]
    obtain ⟨cr0, hcr0⟩ : ∃ x, currentRepBlock stats.sales_rep none =
        .ok x := ⟨none, rfl⟩
    rw [hcr0, ok_bind]
    rw [htr, ok_bind]
    obtain ⟨s00, hs00⟩ : ∃ x, baselineSims stats.overall_win_rate none ms mp
        stats.avg_revenue_by_product
        ((sortDescBy (fun rp => rp.lift) entries).take 5) = .ok x := ⟨_, rfl⟩
    rw [hs00, ok_bind]
    rw [hqi, ok_bind]
    exact ⟨_, rfl⟩
  obtain ⟨r, hr⟩ := hexists
  obtain ⟨p2, av2, sm2, ps2, rg2, cr2, tr2, s02, qi2, hp2, hav2, hsm2, hps2,
    hrg2, hcr2, htr2b, hs02, hqi2, hov2, hprod2, hav22, hsec2, hps22, hrg22,
    hcr22, htr22, hwd2, hlr2, hqle2, hsims2, hwpi2⟩ := engine_ok_inv hr
  rw [hpk] at hp2
  rw [hmp] at hp2
  have hpe := ok_inj hp2
  subst hpe
  rw [hsk] at hsm2
  rw [hms] at hsm2
  have hse := ok_inj hsm2
  subst hse
  rw [hrk] at hrg2
  have hre : (none : Option (List (String × WinLift))) = rg2 :=
    ok_inj hrg2
  rw [hck] at hcr2
  have hce : (none : Option RepInfo) = cr2 := ok_inj hcr2
  rw [htr] at htr2b
  have hte := ok_inj htr2b
  subst hte
  have hmplen : r.products.length =
      ((sortDescBy (fun p : String × ℚ => p.2) stats.product.lift).take
        3).length := by
    rw [← List.length_map r.products Prod.fst, hprod2, hmpf, List.length_map]
  have hmslen : r.sector.length =
      ((sortDescBy (fun p : String × ℚ => p.2)
        stats.account_sector.lift).take 3).length := by
    rw [← List.length_map r.sector Prod.fst, hsec2, hmsf, List.length_map]
  have hsortlenP : (sortDescBy (fun p : String × ℚ => p.2)
      stats.product.lift).length = stats.product.lift.length :=
    (sortDescBy_perm _ _).length_eq
  have hsortlenS : (sortDescBy (fun p : String × ℚ => p.2)
      stats.account_sector.lift).length = stats.account_sector.lift.length :=
    (sortDescBy_perm _ _).length_eq
  have hPpos : 0 < stats.product.lift.length := List.length_pos.mpr hPne
  have hSpos : 0 < stats.account_sector.lift.length := List.length_pos.mpr hSne
  refine ⟨r, hr, by rw [hprod2, hmpf], ?_, ?_, by rw [hsec2, hmsf], ?_, ?_,
    hre.symm ▸ hrg22, hce.symm ▸ hcr22,
    ⟨entries, hentmap, hentprops, htr22,
      by rw [htr22]; exact List.length_take_le 5 _⟩⟩
  · intro hnil
    have := hmplen
    rw [hnil] at this
    simp [List.length_take, hsortlenP] at this
    omega
  · rw [hmplen, List.length_take, hsortlenP]
    omega
  · intro hnil
    have := hmslen
    rw [hnil] at this
    simp [List.length_take, hsortlenS] at this
    omega
  · rw [hmslen, List.length_take, hsortlenS]
    omega

/-- Witness for C2's amended theorem on the concrete fixture. -/
theorem C2_graceful_degradation_amended_witness :
    ∃ r, engine_get_relevant_stats fixtureStats fixtureQual none
        attrsUnknown = .ok r ∧
      r.products ≠ [] ∧ r.products.length ≤ 3 ∧ r.sector ≠ [] ∧
      r.region = none ∧ r.top_reps.length ≤ 5 := by
  obtain ⟨r, hok, h1, h2, h3, h4, h5, h6, h7, h8, h9⟩ :=
    C2_graceful_degradation_amended fixtureStats fixtureQual none attrsUnknown
      (by with_unfolding_all rfl) (by with_unfolding_all rfl)
      (by with_unfolding_all rfl) (by with_unfolding_all rfl)
      (by decide) (by decide) (by decide) (by decide) (by decide)
      (by decide) (by decide) (by decide) (by decide)
  obtain ⟨entries, he1, he2, he3, he4⟩ := h9
  exact ⟨r, hok, h2, h3, h5, h7, he4⟩

/-- Witness for C8 on the concrete fixture: with a failing parse the
fallback estimate is recorded, with a parsed `12` the estimate is `12`
and exactly one `from_qual` simulation exists. -/
theorem C8_uplift_parse_handling_witness :
    engine_get_relevant_stats fixtureStats fixtureQual none attrsResolved =
      .ok resolvedResultNoLLM ∧
    engine_get_relevant_stats fixtureStats fixtureQual (some 12) attrsResolved =
      .ok resolvedResult ∧
    resolvedResult.qual_lift_estimate = some 12 ∧
    (resolvedResult.simulations.filter (fun s => s.from_qual)).length = 1 :=
  have h1 : engine_get_relevant_stats fixtureStats fixtureQual none
      attrsResolved = .ok resolvedResultNoLLM := by with_unfolding_all rfl
  have h2 : engine_get_relevant_stats fixtureStats fixtureQual (some 12)
      attrsResolved = .ok resolvedResult := by with_unfolding_all rfl
  have hne : ∃ l, resolvedResultNoLLM.qualitative_insights.loss_risks =
      some l ∧ l ≠ [] :=
    ⟨[("pricing_high", { frequency := 9/20, count := 5 })],
      by with_unfolding_all rfl, by simp⟩
  ⟨h1, h2,
    (C8_uplift_parse_handling fixtureStats fixtureQual attrsResolved 12 _ _
      h1 h2 hne).2.1,
    (C8_uplift_parse_handling fixtureStats fixtureQual attrsResolved 12 _ _
      h1 h2 hne).2.2.1⟩

/-- C1: the claim (and spec §4.3) says an unresolved sector skips the
product-sector combination component entirely and stats assembly still
returns normally.  In `sales_advisor_engine.py` the combination block is
indented under the `else:` of the sector lookup (lines 613-639 under line
599), so with a resolved product and an unresolvable sector it *runs* with
`sector_key = None` and `sector_key.lower()` raises `AttributeError` —
the assembly does not return normally.  (The app.py / REST variants place
the same block inside the resolved branch, which is what the spec
describes; the engine's placement contradicts the repository's own
missing-metrics test expectations, hence a code bug.) -/
theorem C1_combination_skip_code_bug :
    engine_get_relevant_stats fixtureStats fixtureQual none attrsTypoSector =
      .error "AttributeError: 'NoneType' object has no attribute 'lower'" := by
  with_unfolding_all rfl

/-- C10 (implicit): stats assembly completes only when every product
key placed in the assembled products mapping also appears in the
`avg_revenue_by_product` table — that output field is built by raising
`[]`-indexing — whereas the `.get(prod, 0)` zero-default applies only to
each product simulation's `revenue_estimate`. -/
theorem C10_avg_revenue_precondition (stats : Stats) (qual : QualStats)
    (llm : Option ℚ) (attrs : ExtractedAttrs) (r : RelevantStats)
    (h : engine_get_relevant_stats stats qual llm attrs = .ok r) :
    (∀ k ∈ r.products.map Prod.fst,
      k ∈ stats.avg_revenue_by_product.map Prod.fst) ∧
    (∀ p wl, (p, wl) ∈ r.products →
      Simulation.mk ("Switch to " ++ p) (stats.overall_win_rate * wl.lift)
        ((wl.lift - 1) * 100)
        (some (dgetD stats.avg_revenue_by_product p 0)) none false ∈
        r.simulations) := by
  obtain ⟨p, av, sm, ps, rg, cr, tr, s0, qi, hp, hav, hsm, hps, hrg, hcr, htr,
    hs0, hqi, hov, hprod, hav2, hsec, hps2, hrg2, hcr2, htr2, hwd, hlr, hqle,
    hsims, hwpi⟩ := engine_ok_inv h
  constructor
  · intro k hk
    rw [hprod] at hk
    exact avgRevenueBlock_mem hav k hk
  · intro pr wl hmem
    rw [hprod] at hmem
    rw [hsims]
    exact mem_sortDescBy.mpr (List.mem_append.mpr
      (Or.inl (baselineSims_product_mem hs0 pr wl hmem)))

/-- Witness for C10 on the concrete fixture: the matched product `Alpha`
is in the products mapping, and therefore in the revenue table. -/
theorem C10_avg_revenue_precondition_witness :
    engine_get_relevant_stats fixtureStats fixtureQual (some 12) attrsResolved =
      .ok resolvedResult ∧
    "Alpha" ∈ fixtureStats.avg_revenue_by_product.map Prod.fst :=
  have hok : engine_get_relevant_stats fixtureStats fixtureQual (some 12)
      attrsResolved = .ok resolvedResult := by with_unfolding_all rfl
  have hmap : resolvedResult.products.map Prod.fst = ["Alpha"] := by
    with_unfolding_all rfl
  ⟨hok, (C10_avg_revenue_precondition _ _ _ _ _ hok).1 "Alpha"
    (hmap ▸ List.mem_singleton.mpr rfl)⟩

end SalesAdvisor


